import Mathlib

/-!
# traverse: the crawl-and-reconcile engine of `traverse.go`

A shallow embedding of `get`, `crawl` and `main` from `traverse.go`.

* Every interaction with the outside (the HTTP client, the file system calls
  that can fail, the `gln` command, the helper functions that live in other
  files of the repository) is a field of `Env`; the theorems quantify over it.
* The shared variables (`visited`, the tokens held in `getToken`) and the
  file system are threaded explicitly through `State`.
* Each call records what it did, in order, in a list of `Event`s; log and print
  statements carry the line of `traverse.go` they come from.
* `go crawl(...)` is a `spawn` event; `stepTask` runs one spawned task to
  completion and `runTasks` runs a schedule of them.
-/

namespace Traverse

/-! ## `path/filepath` on Unix paths -/

/-- The segments of a path: the pieces between `/` characters. -/
def splitSlash : List Char → List (List Char)
  | [] => [[]]
  | c :: cs =>
    match splitSlash cs with
    | [] => if c = '/' then [[], []] else [[c]]
    | seg :: rest => if c = '/' then [] :: seg :: rest else (c :: seg) :: rest

/-- One round of the loop of `filepath.Clean`: `out` is the stack of segments
written so far, innermost first. -/
def cleanStep (rooted : Bool) (out : List (List Char)) (seg : List Char) : List (List Char) :=
  if seg = [] then out
  else if seg = ['.'] then out
  else if seg = ['.', '.'] then
    match out with
    | [] => if rooted then [] else [seg]
    | top :: below => if top = ['.', '.'] then seg :: top :: below else below
  else seg :: out

/-- The segments joined with `/`. -/
def joinSlash : List (List Char) → List Char
  | [] => []
  | [s] => s
  | s :: t :: rest => s ++ '/' :: joinSlash (t :: rest)

/-- The function `filepath.Clean` on a list of characters. -/
def cleanChars (p : List Char) : List Char :=
  match p with
  | [] => ['.']
  | c :: _ =>
    let rooted : Bool := c = '/'
    let segs := ((splitSlash p).foldl (cleanStep rooted) []).reverse
    let body := joinSlash segs
    if rooted then '/' :: body
    else if body = [] then ['.'] else body

/-- The function `filepath.Clean`. -/
def Clean (p : String) : String := ⟨cleanChars p.data⟩

/-- The function `filepath.Join`: the leading empty elements are dropped, the
rest is joined with `/` and cleaned; no non-empty element gives `""`. -/
def Join : List String → String
  | [] => ""
  | e :: rest =>
    if e = "" then Join rest
    else Clean ⟨joinSlash ((e :: rest).map String.data)⟩

/-- What is left of the characters after the trailing `/`s are dropped. -/
def dropTrailingSlashes (p : List Char) : List Char :=
  (p.reverse.dropWhile (fun c => c = '/')).reverse

/-- The function `filepath.Base`. -/
def Base (p : String) : String :=
  if p.data = [] then "."
  else
    let q := dropTrailingSlashes p.data
    let b := (q.reverse.takeWhile (fun c => c ≠ '/')).reverse
    if b = [] then "/" else ⟨b⟩

/-- The function `filepath.Dir`: all but the last element, cleaned. -/
def Dir (p : String) : String :=
  Clean ⟨(p.data.reverse.dropWhile (fun c => c ≠ '/')).reverse⟩

/-! ## Data -/

/-- The fields of a `url.URL` that `traverse.go` can observe. -/
structure URL where
  Scheme : String
  Host : String
  Path : String
  RawQuery : String
  Fragment : String
deriving DecidableEq, Repr

/-- The method `(*url.URL).String` for a URL without opaque part and user
info, whose path, query and fragment need no escaping. -/
def urlString (u : URL) : String :=
  let scheme := if u.Scheme ≠ "" then u.Scheme ++ ":" else ""
  let authority :=
    if u.Scheme ≠ "" ∨ u.Host ≠ "" then
      (if u.Host ≠ "" ∨ u.Path ≠ "" then "//" else "") ++ u.Host
    else ""
  let slash := if u.Path ≠ "" ∧ u.Path.data.head? ≠ some '/' ∧ u.Host ≠ "" then "/" else ""
  let dot :=
    if scheme ++ authority ++ slash = "" ∧ ':' ∈ u.Path.data.takeWhile (fun c => c ≠ '/')
    then "./" else ""
  let query := if u.RawQuery ≠ "" then "?" ++ u.RawQuery else ""
  let fragment := if u.Fragment ≠ "" then "#" ++ u.Fragment else ""
  scheme ++ authority ++ slash ++ dot ++ u.Path ++ query ++ fragment

/-- The struct `File`: a local or remote entry. -/
structure File where
  name : String
  isDir : Bool
deriving DecidableEq, Repr

/-- What `crawl` reads of an `os.FileInfo`. -/
structure FileInfo where
  Name : String
  IsDir : Bool
deriving DecidableEq, Repr

abbrev Bytes := List (Fin 256)

abbrev Header := List (String × String)

/-- What `get` and `crawl` read of an `*http.Response`. -/
structure Response where
  /-- The field `resp.Request.URL`: the URL of the last request, after redirects. -/
  RequestURL : URL
  StatusCode : Int
  Header : Header
  Body : Bytes
deriving DecidableEq, Repr

/-- An entry of the file system. -/
inductive Node where
  | file (content : Bytes)
  | dir
  | symlink (target : String)
deriving DecidableEq, Repr

/-- The file system: what is at each absolute path. -/
abbrev FS := String → Option Node

/-- How `cmd.Output()` can end for the `gln` command. -/
inductive ExecResult where
  /-- The command ran and exited with status 0. -/
  | ok
  /-- The command ran and exited with another status: an `*exec.ExitError`. -/
  | exitError
  /-- The command did not run (not found, not executable): an `*exec.Error`
  or `*fs.PathError`, not an `*exec.ExitError`. -/
  | startError
deriving DecidableEq, Repr

/-- What a call did, in order. `out` and `log` carry the line of `traverse.go`
of the `fmt` or `log` statement. -/
inductive Event where
  | out (line : Nat)
  | log (line : Nat)
  /-- The send `getToken <- struct{}{}` went through: one more slot held. -/
  | acquire
  /-- The call `StandardClient.Get(urlString)`. -/
  | fetch (urlString : String)
  /-- The receive `<-getToken`: one slot fewer held. -/
  | release
  /-- The call `isURLOutOfBoundary(finalURL)`. -/
  | validate (finalURL : URL)
  /-- A read of `resp.Body`. -/
  | bodyRead
  /-- The deferred `resp.Body.Close()`. -/
  | bodyClose
  | stat (path : String)
  /-- The command `gln -sr target link`. -/
  | exec (target link : String)
  | mkdirAll (path : String)
  | readDir (path : String)
  | removeAll (path : String)
  | tempFile (dir pattern : String)
  | rename (oldpath newpath : String)
  | remove (path : String)
  /-- The call `wg.Add(1)`. -/
  | wgAdd
  /-- The statement `go crawl(url, baseFolder)`. -/
  | spawn (url : URL) (baseFolder : String)
  /-- The deferred `wg.Done()`. -/
  | wgDone
deriving DecidableEq, Repr

/-- The events that can change the file system. -/
def Event.mutatesFS : Event → Bool
  | .exec _ _ => true
  | .mkdirAll _ => true
  | .removeAll _ => true
  | .tempFile _ _ => true
  | .rename _ _ => true
  | .remove _ => true
  | _ => false

/-- The events that start a child task. -/
def Event.isSpawn : Event → Bool
  | .spawn _ _ => true
  | _ => false

/-- The events that issue a network fetch. -/
def Event.isFetch : Event → Bool
  | .fetch _ => true
  | _ => false

/-- Everything outside `traverse.go` that `get`, `crawl` and `main` depend on:
the package-level variables set before the crawl, the HTTP client, the helper
functions defined in other files of the repository, and the outcome of each
operating-system call that can fail. -/
structure Env where
  /-- The capacity of the channel `getToken`. -/
  workers : Nat
  /-- The variable `dry`. -/
  dry : Bool
  /-- The variable `boundaryPrefixURL`. -/
  boundaryPrefixURL : URL
  /-- The call `StandardClient.Get(urlString)`; `none` is a non-nil error. -/
  httpGet : String → Option Response
  /-- Whether `isURLOutOfBoundary` returns a non-nil error. -/
  isURLOutOfBoundary : URL → Bool
  /-- The value of `*resp.Request.URL` once `sanitizeURL(finalURL)` has
  returned: the helper receives the pointer, and `get` returns
  `resp.Request.URL`, not the helper's result. The identity for a helper that
  does not write through its argument. -/
  sanitizeURL : URL → URL
  getFileRelPath : URL → String
  IsHTML : Header → Bool
  getHrefsFromHTML : Bytes → List String
  generateRemoteFileList : URL → List String → List File
  getSyncAndRemoveList : List File → List File → List String × List String
  /-- The helper `urlBuilder`; `none` is a non-nil error. -/
  urlBuilder : URL → String → Option URL
  /-- The value of `*target` once `addTrailingSlashForAbsURL(target)` returned. -/
  addTrailingSlashForAbsURL : URL → URL
  /-- Whether `validateEnterpoint(base)` returns rather than ending the process. -/
  validateEnterpoint : URL → Bool
  /-- Whether `net.ResolveIPAddr("ip", bindIP)` succeeds. -/
  resolveIPAddr : String → Bool
  /-- How the command `gln -sr target link` ends; a command that does not end
  with status 0 is taken to leave the file system as it was. -/
  gln : FS → String → String → ExecResult
  /-- Whether `os.MkdirAll` returns an error; a call that fails is taken to
  leave the file system as it was, as for the other calls below. -/
  mkdirAllFails : FS → String → Bool
  /-- The call `ioutil.ReadDir`; `none` is a non-nil error. -/
  readDir : FS → String → Option (List FileInfo)
  /-- Whether `os.RemoveAll` returns an error. -/
  removeAllFails : FS → String → Bool
  /-- The random string `ioutil.TempFile` puts into the name of the file it
  creates, for a directory and a pattern; `none` is a non-nil error. -/
  tempFile : FS → String → String → Option String
  /-- The call `io.Copy(out, resp.Body)`: `none` is success, `some n` an error
  after `n` bytes were written. -/
  copyFails : Bytes → Option Nat
  /-- Whether `os.Rename` returns an error. -/
  renameFails : FS → String → String → Bool

/-- The shared variables and the file system. -/
structure State where
  /-- The keys stored in the map `visited`. -/
  visited : List String
  fs : FS
  /-- The number of tokens in the channel `getToken`. -/
  held : Nat

/-! ## The file system calls -/

/-- The file system with `n` at path `p`. -/
def writeNode (fs : FS) (p : String) (n : Node) : FS :=
  fun q => if q = p then some n else fs q

/-- The file system without the entry at path `p`: `os.Remove`. -/
def removeNode (fs : FS) (p : String) : FS :=
  fun q => if q = p then none else fs q

/-- Whether `os.Stat(p)` fails with an error for which `os.IsNotExist` holds:
there is no entry at `p`. -/
def statNotExist (fs : FS) (p : String) : Bool :=
  (fs p).isNone

/-- Whether `q` is the clean absolute path `p` or a directory above it. -/
def isAncestorOrSelf (q p : String) : Bool :=
  q = p || (q ≠ "" && (if q = "/" then ['/'] else q.data ++ ['/']).isPrefixOf p.data)

/-- A successful `os.MkdirAll(p, 0755)`: `p` and the directories above it
exist afterwards; what was there stays. -/
def mkdirAll (fs : FS) (p : String) : FS :=
  fun q => if (fs q).isNone && isAncestorOrSelf q p then some Node.dir else fs q

/-- A successful `os.RemoveAll(p)`: `p` and everything below it is gone. -/
def removeAll (fs : FS) (p : String) : FS :=
  fun q => if q = p || (p.data ++ ['/']).isPrefixOf q.data then none else fs q

/-- A successful `os.Rename(a, b)`: the entry at `a` is at `b` afterwards. -/
def rename (fs : FS) (a b : String) : FS :=
  fun q => if q = b then fs a else if q = a then none else fs q

/-- The name of the file `ioutil.TempFile(dir, pattern)` creates with the
random string `rnd`: the random string replaces the last `*` of the pattern,
or is appended to a pattern without `*`. -/
def tempName (dir pattern rnd : String) : String :=
  let r := pattern.data.reverse
  if '*' ∈ pattern.data then
    Join [dir, ⟨(r.dropWhile (fun c => c ≠ '*')).tail.reverse ++ rnd.data
      ++ (r.takeWhile (fun c => c ≠ '*')).reverse⟩]
  else Join [dir, pattern ++ rnd]

/-! ## `get` -/

/-- What `get` returns: `(nil, url, err)` with a non-nil error, or
`(resp, url, nil)`. -/
inductive GetReturn where
  | error (url : URL)
  | ok (resp : Response) (url : URL)
deriving DecidableEq, Repr

/-- A call of `get`: the tokens held afterwards, what it did, and what it
returned; `ret = none` when the send on `getToken` blocks because the channel
is full, in which case nothing else happens. -/
structure GetOutcome where
  held : Nat
  trace : List Event
  ret : Option GetReturn

/-- The function `get` (lines 36-51), called with `held` tokens in `getToken`. -/
def get (env : Env) (held : Nat) (url : URL) : GetOutcome :=
  if held < env.workers then
    let held1 := held + 1
    let urlString := urlString url
    let fetched := env.httpGet urlString
    let held2 := held1 - 1
    match fetched with
    | none =>
      { held := held2, trace := [.acquire, .fetch urlString, .release], ret := some (.error url) }
    | some resp =>
      let finalURL := resp.RequestURL
      if env.isURLOutOfBoundary finalURL then
        { held := held2
          trace := [.acquire, .fetch urlString, .release, .validate finalURL]
          ret := some (.error finalURL) }
      else
        { held := held2
          trace := [.acquire, .fetch urlString, .release, .validate finalURL]
          ret := some (.ok resp (env.sanitizeURL resp.RequestURL)) }
  else
    { held := held, trace := [], ret := none }

/-- The number of tokens held after each event of a trace, from `held`. -/
def heldAlong (held : Nat) : List Event → List Nat
  | [] => []
  | .acquire :: rest => (held + 1) :: heldAlong (held + 1) rest
  | .release :: rest => (held - 1) :: heldAlong (held - 1) rest
  | _ :: rest => held :: heldAlong held rest

/-- The number of tokens held after a trace, from `held`. -/
def heldAfter (held : Nat) : List Event → Nat
  | [] => held
  | .acquire :: rest => heldAfter (held + 1) rest
  | .release :: rest => heldAfter (held - 1) rest
  | _ :: rest => heldAfter held rest

/-- The events that change the number of tokens held. -/
def Event.isToken : Event → Bool
  | .acquire => true
  | .release => true
  | _ => false

/-! ## `crawl` -/

/-- What one of the three branches of `crawl` did. -/
structure Branch where
  fs : FS
  trace : List Event
  /-- The branch ended in a run-time panic. -/
  panicked : Bool

/-- The redirect branch (lines 70-88). -/
def redirect (env : Env) (fs : FS) (url finalURL : URL) (baseFolder : String) : Branch :=
  let fromPath := env.getFileRelPath url
  let toPath := env.getFileRelPath finalURL
  let fromFullPath := Join [baseFolder, fromPath]
  let toFullPath := Join [baseFolder, toPath]
  let child : List Event := [.wgAdd, .spawn finalURL baseFolder]
  if fromFullPath ≠ toFullPath then
    if statNotExist fs fromFullPath then
      match env.gln fs toFullPath fromFullPath with
      | .ok =>
        { fs := writeNode fs fromFullPath (.symlink toFullPath)
          trace := [.stat fromFullPath, .exec toFullPath fromFullPath, .out 81] ++ child
          panicked := false }
      | .exitError =>
        { fs := fs
          trace := [.stat fromFullPath, .exec toFullPath fromFullPath, .out 81, .out 83] ++ child
          panicked := false }
      | .startError =>
        -- line 83: the type assertion `err.(*exec.ExitError)` panics
        { fs := fs
          trace := [.stat fromFullPath, .exec toFullPath fromFullPath, .out 81]
          panicked := true }
    else
      { fs := fs, trace := .stat fromFullPath :: child, panicked := false }
  else
    { fs := fs, trace := child, panicked := false }

/-- The loop over `removeList` (lines 113-121). -/
def removeLoop (env : Env) (folderPath : String) : FS → List String → FS × List Event
  | fs, [] => (fs, [])
  | fs, name :: rest =>
    let fullName := Join [folderPath, name]
    if env.removeAllFails fs fullName then
      let r := removeLoop env folderPath fs rest
      (r.1, .removeAll fullName :: .log 117 :: r.2)
    else
      let r := removeLoop env folderPath (removeAll fs fullName) rest
      (r.1, .removeAll fullName :: .log 119 :: r.2)

/-- The loop over `syncList` (lines 123-132). -/
def syncLoop (env : Env) (baseFolder : String) : List String → List Event
  | [] => []
  | href :: rest =>
    match env.urlBuilder env.boundaryPrefixURL href with
    | none => .log 126 :: syncLoop env baseFolder rest
    | some newURL => .log 128 :: .wgAdd :: .spawn newURL baseFolder :: syncLoop env baseFolder rest

/-- The list `localList` built at lines 105-108. -/
def localListOf (folderRelPath : String) (infos : List FileInfo) : List File :=
  infos.map (fun file => File.mk (Join [folderRelPath, file.Name]) file.IsDir)

/-- The listing branch (lines 90-132). -/
def listing (env : Env) (fs : FS) (finalURL : URL) (resp : Response) (baseFolder : String) :
    Branch :=
  let folderRelPath := env.getFileRelPath finalURL
  let folderPath := Join [baseFolder, folderRelPath]
  if env.mkdirAllFails fs folderPath then
    { fs := fs, trace := [.mkdirAll folderPath, .log 94], panicked := false }
  else
    let fs1 := mkdirAll fs folderPath
    let hrefs := env.getHrefsFromHTML resp.Body
    let remoteList := env.generateRemoteFileList finalURL hrefs
    match env.readDir fs1 folderPath with
    | none =>
      { fs := fs1
        trace := [.mkdirAll folderPath, .bodyRead, .readDir folderPath, .log 102]
        panicked := false }
    | some localFileInfoList =>
      let localList := localListOf folderRelPath localFileInfoList
      let lists := env.getSyncAndRemoveList remoteList localList
      let syncList := lists.1
      let removeList := lists.2
      let removed := removeLoop env folderPath fs1 removeList
      { fs := removed.1
        trace := [.mkdirAll folderPath, .bodyRead, .readDir folderPath, .out 111, .out 112]
          ++ removed.2 ++ syncLoop env baseFolder syncList
        panicked := false }

/-- The variable `downloadPath` after line 135. -/
def downloadPathOf (env : Env) (finalURL : URL) (baseFolder : String) : String :=
  Join [baseFolder, env.getFileRelPath finalURL]

/-- The name `out.Name()` of the temporary file of line 139 made with the
random string `rnd`. -/
def outNameOf (downloadPath rnd : String) : String :=
  tempName (Dir downloadPath) (Base downloadPath) rnd

/-- The download branch (lines 134-163); the deferred `os.Remove(out.Name())`
is the last event of every path on which the temporary file was created. -/
def download (env : Env) (fs : FS) (finalURL : URL) (resp : Response) (baseFolder : String) :
    Branch :=
  let downloadPath := downloadPathOf env finalURL baseFolder
  if statNotExist fs downloadPath then
    let dir := Dir downloadPath
    let pattern := Base downloadPath
    match env.tempFile fs dir pattern with
    | none =>
      { fs := fs
        trace := [.stat downloadPath, .out 137, .tempFile dir pattern, .log 141]
        panicked := false }
    | some rnd =>
      let outName := outNameOf downloadPath rnd
      let fs1 := writeNode fs outName (.file [])
      let opened : List Event := [.stat downloadPath, .out 137, .tempFile dir pattern]
      if !env.dry then
        match env.copyFails resp.Body with
        | some n =>
          { fs := removeNode (writeNode fs1 outName (.file (resp.Body.take n))) outName
            trace := opened ++ [.bodyRead, .log 149, .remove outName]
            panicked := false }
        | none =>
          let fs2 := writeNode fs1 outName (.file resp.Body)
          if env.renameFails fs2 outName downloadPath then
            { fs := removeNode fs2 outName
              trace := opened ++ [.bodyRead, .rename outName downloadPath, .log 158,
                .remove outName]
              panicked := false }
          else
            { fs := removeNode (rename fs2 outName downloadPath) outName
              trace := opened ++ [.bodyRead, .rename outName downloadPath, .remove outName]
              panicked := false }
      else
        if env.renameFails fs1 outName downloadPath then
          { fs := removeNode fs1 outName
            trace := opened ++ [.out 153, .rename outName downloadPath, .log 158,
              .remove outName]
            panicked := false }
        else
          { fs := removeNode (rename fs1 outName downloadPath) outName
            trace := opened ++ [.out 153, .rename outName downloadPath, .remove outName]
            panicked := false }
  else
    { fs := fs, trace := [.stat downloadPath, .out 161], panicked := false }

/-- How a call of `crawl` ends. -/
inductive Ending where
  /-- The function returned. -/
  | returned
  /-- A run-time panic: the deferred calls ran, then the process ends. -/
  | panicked
  /-- The call waits in `get` for a token. -/
  | blocked
deriving DecidableEq, Repr

/-- A call of `crawl`: the state afterwards, what it did, how it ended. -/
structure Outcome where
  st : State
  trace : List Event
  ending : Ending

/-- The condition `statusOK` of line 65. -/
def statusOK (statusCode : Int) : Bool :=
  decide (statusCode ≥ 200) && decide (statusCode < 300)

/-- The branch `crawl` takes for a response with a 2xx status (lines 69-164). -/
def classify (env : Env) (fs : FS) (url finalURL : URL) (resp : Response)
    (baseFolder : String) : Branch :=
  if urlString url ≠ urlString finalURL then redirect env fs url finalURL baseFolder
  else if env.IsHTML resp.Header then listing env fs finalURL resp baseFolder
  else download env fs finalURL resp baseFolder

/-- The method `visited.LoadOrStore(key, true)`: the keys afterwards, and
`loaded`, whether the key was there already. -/
def LoadOrStore (visited : List String) (key : String) : List String × Bool :=
  if key ∈ visited then (visited, true) else (key :: visited, false)

/-- The function `crawl` (lines 53-169). The deferred `wg.Done()` is the last
event of every path that ends, the deferred `resp.Body.Close()` the one before
it on every path that got a response. -/
def crawl (env : Env) (st : State) (url : URL) (baseFolder : String) : Outcome :=
  let stored := LoadOrStore st.visited (urlString url)
  let visited := stored.1
  let loaded := stored.2
  if !loaded then
    let g := get env st.held url
    match g.ret with
    | none =>
      { st := { visited := visited, fs := st.fs, held := g.held }
        trace := .out 55 :: g.trace
        ending := .blocked }
    | some (.error _) =>
      { st := { visited := visited, fs := st.fs, held := g.held }
        trace := .out 55 :: g.trace ++ [.log 59, .wgDone]
        ending := .returned }
    | some (.ok resp finalURL) =>
      if !statusOK resp.StatusCode then
        { st := { visited := visited, fs := st.fs, held := g.held }
          trace := .out 55 :: g.trace ++ [.out 64, .log 67, .bodyClose, .wgDone]
          ending := .returned }
      else
        let b := classify env st.fs url finalURL resp baseFolder
        { st := { visited := visited, fs := b.fs, held := g.held }
          trace := .out 55 :: g.trace ++ .out 64 :: b.trace ++ [.bodyClose, .wgDone]
          ending := if b.panicked then .panicked else .returned }
  else
    { st := { visited := visited, fs := st.fs, held := st.held }
      trace := [.out 55, .out 167, .wgDone]
      ending := .returned }

/-- Whether a call of `crawl` in state `st` is the first to claim the URL:
`!loaded` at line 56. -/
def firstClaim (st : State) (url : URL) : Bool :=
  !(LoadOrStore st.visited (urlString url)).2

/-! ## The tasks of a run -/

/-- A task: the arguments of one `go crawl(url, baseFolder)`. -/
structure Task where
  url : URL
  baseFolder : String
deriving DecidableEq, Repr

/-- The tasks a trace starts, in order. -/
def spawnedBy : List Event → List Task
  | [] => []
  | .spawn u b :: rest => ⟨u, b⟩ :: spawnedBy rest
  | _ :: rest => spawnedBy rest

/-- The counter of the wait group `wg` after a trace, from `n`. -/
def wgAfter (n : Int) : List Event → Int
  | [] => n
  | .wgAdd :: rest => wgAfter (n + 1) rest
  | .wgDone :: rest => wgAfter (n - 1) rest
  | _ :: rest => wgAfter n rest

/-- The number of `wg.Done()` calls of a trace. -/
def doneCount : List Event → Nat
  | [] => 0
  | .wgDone :: rest => doneCount rest + 1
  | _ :: rest => doneCount rest

/-- Whether each `spawn` of a trace comes right after a `wgAdd` and each
`wgAdd` right before a `spawn`; `added` says that the event before the trace
was a `wgAdd`. -/
def addThenSpawn (added : Bool) : List Event → Bool
  | [] => !added
  | .wgAdd :: rest => !added && addThenSpawn true rest
  | .spawn _ _ :: rest => added && addThenSpawn false rest
  | _ :: rest => !added && addThenSpawn false rest

/-- Whether a `wg.Add(1)` is waiting for its `go crawl` at the end of a trace;
`added` says so for the start of the trace. -/
def addPending : Bool → List Event → Bool
  | added, [] => added
  | _, .wgAdd :: rest => addPending true rest
  | _, _ :: rest => addPending false rest

/-- The events that concern the wait group. -/
def Event.isWg : Event → Bool
  | .wgAdd => true
  | .spawn _ _ => true
  | .wgDone => true
  | _ => false

/-- A trace keeps the counter of `wg` in step with the tasks it starts: each
`spawn` comes right after its `wgAdd`, there is no `wgDone`, and the counter
grows by the number of tasks started. -/
def Balanced (t : List Event) : Prop :=
  addThenSpawn false t = true ∧ doneCount t = 0 ∧
    ∀ n : Int, wgAfter n t = n + (spawnedBy t).length

/-- A run of the process: the shared state, the counter of `wg`, the tasks
started and not yet run, the tasks waiting in `get`, whether a task panicked,
and everything done so far. -/
structure Sys where
  st : State
  wg : Int
  pending : List Task
  waiting : List Task
  crashed : Bool
  trace : List Event

/-- The run after the `i`-th pending task has run. -/
def stepTask (env : Env) (s : Sys) (i : Nat) : Sys :=
  match s.pending[i]? with
  | none => s
  | some t =>
    let o := crawl env s.st t.url t.baseFolder
    { st := o.st
      wg := wgAfter s.wg o.trace
      pending := s.pending.eraseIdx i ++ spawnedBy o.trace
      waiting := if o.ending = .blocked then t :: s.waiting else s.waiting
      crashed := s.crashed || decide (o.ending = .panicked)
      trace := s.trace ++ o.trace }

/-- The runs that can be reached from `init` by running pending tasks in any
order, as long as no task has panicked. -/
inductive Reachable (env : Env) (init : Sys) : Sys → Prop where
  | start : Reachable env init init
  | step (s : Sys) (i : Nat) : Reachable env init s → s.crashed = false →
      i < s.pending.length → Reachable env init (stepTask env s i)

/-- Runs pending tasks in the order `pick` chooses until a task panics or
none is left to run; `none` when `fuel` tasks were not enough. -/
def runTasks (env : Env) (pick : Sys → Nat) : Nat → Sys → Option Sys
  | fuel, s =>
    if s.crashed || s.pending.isEmpty then some s
    else
      match fuel with
      | 0 => none
      | fuel + 1 => runTasks env pick fuel (stepTask env s (pick s % s.pending.length))

/-! ## `main` -/

/-- The URL `base` of line 216. -/
def base : URL :=
  { Scheme := "https", Host := "download.docker.com", Path := "/", RawQuery := "", Fragment := "" }

/-- The list of line 209 after the `parseAndPush` of line 214. -/
def seedList (env : Env) : List URL :=
  [env.addTrailingSlashForAbsURL
    { Scheme := "https", Host := "download.docker.com", Path := "/win/static/",
      RawQuery := "", Fragment := "" }]

/-- The loop of lines 230-233. -/
def mainLoop : List URL → List Event
  | [] => []
  | url :: rest => .wgAdd :: .spawn url "/tmp/test" :: mainLoop rest

/-- The package-level variables as `main` sets them (lines 208, 223-225). -/
def mainEnv (env : Env) (workersNum : Int) : Env :=
  { env with workers := workersNum.toNat, boundaryPrefixURL := base }

/-- The run when `main` reaches `wg.Wait()`. -/
def mainInit (env : Env) (fs : FS) : Sys :=
  { st := { visited := [], fs := fs, held := 0 }
    wg := wgAfter 0 (mainLoop (seedList env))
    pending := spawnedBy (mainLoop (seedList env))
    waiting := []
    crashed := false
    trace := mainLoop (seedList env) }

/-- The exit status once no task can run: 2 after a panic, 0 when the counter
is zero and `wg.Wait()` returns, 2 when it is not (every goroutine is asleep). -/
def exitStatus (s : Sys) : Nat :=
  if s.crashed then 2 else if s.wg = 0 then 0 else 2

/-- The function `main` (lines 183-236) with the flags `bind` and `workers`,
on the file system `fs`: the exit status of the process and everything the run
did; `none` when `fuel` tasks were not enough. A `log.Fatal` exits with 1, a
panic with 2. -/
def main (env : Env) (fs : FS) (bindIP : String) (workersNum : Int) (pick : Sys → Nat)
    (fuel : Nat) : Option (Nat × List Event) :=
  if bindIP ≠ "" ∧ env.resolveIPAddr bindIP = false then some (1, [.log 193])
  else if workersNum < 0 then some (2, [])
  else if env.validateEnterpoint base = false then some (1, [])
  else
    match runTasks (mainEnv env workersNum) pick fuel (mainInit env fs) with
    | none => none
    | some s => some (exitStatus s, s.trace)

/-- The log and print statements at which `crawl` reports a failure: a fetch
error or out-of-boundary final URL (59), a non-2xx status (67), a failed
symlink (83), a failed file system call (94, 102, 117, 141, 149, 158), and
a link that gives no URL (126). -/
def Event.isFailure : Event → Bool
  | .log 59 => true
  | .log 67 => true
  | .out 83 => true
  | .log 94 => true
  | .log 102 => true
  | .log 117 => true
  | .log 126 => true
  | .log 141 => true
  | .log 149 => true
  | .log 158 => true
  | _ => false

/-- The outcomes of crawling the URLs of a list one after the other. -/
def crawlAll (env : Env) (baseFolder : String) : State → List URL → List Outcome
  | _, [] => []
  | st, url :: rest =>
    (crawl env st url baseFolder) :: crawlAll env baseFolder (crawl env st url baseFolder).st rest

/-! ## The helpers of the other files, from the spec, and sample worlds -/

/-- Modelled from the spec: the URL Normalizer `normalize` (§4.2), which is not
in `traverse.go`: it strips the fragment, collapses the `.` and `..` segments
of the path and, for a URL classified as a directory, ensures a single
trailing slash. -/
def normalize (isDirectory : Bool) (u : URL) : URL :=
  let collapsed := cleanChars u.Path.data
  let path := if isDirectory then dropTrailingSlashes collapsed ++ ['/'] else collapsed
  { u with Path := ⟨path⟩, Fragment := "" }

/-- Modelled from the spec: the Boundary Validator `isURLOutOfBoundary` (§4.1),
which is not in `traverse.go`: a URL is out of boundary unless its host, port
left out, is the boundary host and its path starts with the boundary prefix. -/
def specOutOfBoundary (boundaryHost boundaryPrefix : String) (u : URL) : Bool :=
  !(decide (u.Host.data.takeWhile (fun c => c ≠ ':') = boundaryHost.data)
    && boundaryPrefix.data.isPrefixOf u.Path.data)

/-- Modelled from the spec: `relativePath` (§4.2), the helper `getFileRelPath`,
which is not in `traverse.go`: the segments of the URL's path as a relative
path. -/
def specRelPath (u : URL) : String :=
  ⟨u.Path.data.dropWhile (fun c => c = '/')⟩

/-- Modelled from the spec: the remote entries of a directory page (§3, §4.4),
the helper `generateRemoteFileList`, which is not in `traverse.go`: each
hyperlink, a name relative to the page, gives the entry at the page's relative
path joined with it, a directory when the hyperlink ends in a slash. -/
def specRemoteList (finalURL : URL) (hrefs : List String) : List File :=
  hrefs.map (fun h => File.mk (Join [specRelPath finalURL, h]) (h.data.getLast? = some '/'))

/-- Modelled from the spec: the Directory Reconciler `reconcile` (§4.5), the
helper `getSyncAndRemoveList`, which is not in `traverse.go`: `toFetch` are the
remote entries with no local entry of the same path, `toRemove` the local
entries with no remote entry of the same path. -/
def specReconcile (remote localEntries : List File) : List String × List String :=
  ((remote.filter (fun r => !localEntries.any (fun l => l.name = r.name))).map File.name,
   (localEntries.filter (fun l => !remote.any (fun r => r.name = l.name))).map File.name)

/-- Modelled from the spec: the resolution of a `toFetch` entry to an absolute
URL (§4.4), the helper `urlBuilder`, which is not in `traverse.go`: the entry's
relative path under the path of the boundary URL. -/
def specURLBuilder (boundary : URL) (href : String) : Option URL :=
  some { boundary with Path := boundary.Path ++ href }

/-- The boundary of the sample worlds: `https://host/`. -/
def sampleRoot : URL :=
  { Scheme := "https", Host := "host", Path := "/", RawQuery := "", Fragment := "" }

/-- The URL `https://host` followed by a path. -/
def sampleURL (path : String) : URL :=
  { Scheme := "https", Host := "host", Path := path, RawQuery := "", Fragment := "" }

/-- A sample world: one worker, the helpers as the spec describes them, a
server that answers every request with `serve`, and operating-system calls
that all succeed on a directory listed as `entries`. -/
def sampleEnv (serve : String → Option Response) (entries : List FileInfo) : Env :=
  { workers := 1
    dry := false
    boundaryPrefixURL := sampleRoot
    httpGet := serve
    isURLOutOfBoundary := specOutOfBoundary "host" "/"
    sanitizeURL := fun u => u
    getFileRelPath := specRelPath
    IsHTML := fun h => h.any (fun kv => kv.1 = "Content-Type" && kv.2 = "text/html")
    getHrefsFromHTML := fun body => if body = [60, 97, 62] then ["a.txt"] else []
    generateRemoteFileList := specRemoteList
    getSyncAndRemoveList := specReconcile
    urlBuilder := specURLBuilder
    addTrailingSlashForAbsURL := fun u => u
    validateEnterpoint := fun _ => true
    resolveIPAddr := fun _ => true
    gln := fun _ _ _ => .ok
    mkdirAllFails := fun _ _ => false
    readDir := fun _ _ => some entries
    removeAllFails := fun _ _ => false
    tempFile := fun _ _ _ => some "123456"
    copyFails := fun _ => none
    renameFails := fun _ _ _ => false }

/-- The state at the start of a run on an empty file system. -/
def emptyState : State :=
  { visited := [], fs := fun _ => none, held := 0 }

/-- A response with status 200 and a plain body from the URL `https://host`
followed by `path`. -/
def fileResponse (path : String) (body : Bytes) : Response :=
  { RequestURL := sampleURL path, StatusCode := 200, Header := [], Body := body }

/-- The directory page `https://host/sub/` with the one link `a.txt`. -/
def listingResponse : Response :=
  { RequestURL := sampleURL "/sub/", StatusCode := 200
    Header := [("Content-Type", "text/html")], Body := [60, 97, 62] }

/-- The start of a run on a file system where `/tmp/test/sub` holds the files
`a.txt` and `old.txt`. -/
def staleState : State :=
  { visited := []
    fs := fun p =>
      if p = "/tmp/test/sub/a.txt" ∨ p = "/tmp/test/sub/old.txt" then some (.file [])
      else if p ∈ ["/", "/tmp", "/tmp/test", "/tmp/test/sub"] then some .dir
      else none
    held := 0 }

/-- A sample world where `https://host/a` redirects to `https://host/b` and
the command `gln` cannot be started. -/
def noGlnEnv : Env :=
  { sampleEnv (fun _ => some (fileResponse "/b" [104, 105])) [] with
    gln := fun _ _ _ => .startError }

/-- The response of `https://download.docker.com/win/static/` with a status. -/
def seedResponse (status : Int) : Response :=
  { RequestURL :=
      { Scheme := "https", Host := "download.docker.com", Path := "/win/static/",
        RawQuery := "", Fragment := "" }
    StatusCode := status, Header := [], Body := [104, 105] }

/-- A sample world for `main`: the boundary is `https://download.docker.com/`
and the server answers every request with `seedResponse status`. -/
def dockerEnv (status : Int) : Env :=
  { sampleEnv (fun _ => some (seedResponse status)) [] with
    isURLOutOfBoundary := specOutOfBoundary "download.docker.com" "/" }

/-! ## Theorems -/

theorem get_trace_no_spawn (env : Env) (held : Nat) (url : URL) :
    ∀ e ∈ (get env held url).trace, e.mutatesFS = false ∧ e.isSpawn = false := by
  unfold get
  dsimp only
  split
  · split
    · simp [Event.mutatesFS, Event.isSpawn]
    · split <;> simp [Event.mutatesFS, Event.isSpawn]
  · simp

theorem get_fetches (env : Env) (held : Nat) (url : URL) (h : held < env.workers) :
    Event.fetch (urlString url) ∈ (get env held url).trace := by
  unfold get
  dsimp only
  rw [if_pos h]
  split
  · simp
  · split <;> simp

theorem crawl_visited_of_mem (env : Env) (st : State) (url : URL) (baseFolder : String)
    (h : urlString url ∈ st.visited) :
    crawl env st url baseFolder =
      { st := st, trace := [.out 55, .out 167, .wgDone], ending := .returned } := by
  simp [crawl, LoadOrStore, h]

theorem crawl_visited_eq (env : Env) (st : State) (url : URL) (baseFolder : String) :
    (crawl env st url baseFolder).st.visited = (LoadOrStore st.visited (urlString url)).1 := by
  unfold crawl
  dsimp only
  split
  · split
    · rfl
    · rfl
    · split <;> rfl
  · rfl

theorem crawl_marks (env : Env) (st : State) (url : URL) (baseFolder : String) :
    urlString url ∈ (crawl env st url baseFolder).st.visited := by
  rw [crawl_visited_eq]
  unfold LoadOrStore
  split <;> simp_all

theorem crawl_visited_mono (env : Env) (st : State) (url : URL) (baseFolder : String)
    (k : String) (hk : k ∈ st.visited) : k ∈ (crawl env st url baseFolder).st.visited := by
  rw [crawl_visited_eq]
  unfold LoadOrStore
  split <;> simp_all

theorem crawl_fetch_of_free (env : Env) (st : State) (url : URL) (baseFolder : String)
    (hk : urlString url ∉ st.visited) (h : st.held < env.workers) :
    Event.fetch (urlString url) ∈ (crawl env st url baseFolder).trace := by
  have hf := get_fetches env st.held url h
  simp only [crawl, LoadOrStore, hk, if_false, Bool.not_false, if_true]
  split
  · simp [hf]
  · simp [hf]
  · split <;> simp [hf]

theorem crawlAll_no_refetch (env : Env) (baseFolder : String) :
    ∀ (urls : List URL) (st : State) (j : Nat) (uj : URL) (oj : Outcome),
      urls[j]? = some uj → urlString uj ∈ st.visited →
      (crawlAll env baseFolder st urls)[j]? = some oj →
      oj.trace = [.out 55, .out 167, .wgDone] := by
  intro urls
  induction urls with
  | nil => intro st j uj oj h; simp at h
  | cons u rest ih =>
    intro st j uj oj hj hv ho
    cases j with
    | zero =>
      simp only [List.getElem?_cons_zero, Option.some.injEq] at hj
      subst hj
      simp only [crawlAll, List.getElem?_cons_zero, Option.some.injEq] at ho
      rw [← ho, crawl_visited_of_mem env st u baseFolder hv]
    | succ j =>
      simp only [List.getElem?_cons_succ] at hj
      simp only [crawlAll, List.getElem?_cons_succ] at ho
      exact ih _ j uj oj hj (crawl_visited_mono env st u baseFolder _ hv) ho

theorem crawlAll_second_is_noop (env : Env) (baseFolder : String) :
    ∀ (urls : List URL) (st : State) (i j : Nat) (ui uj : URL) (oj : Outcome),
      i < j → urls[i]? = some ui → urls[j]? = some uj → urlString ui = urlString uj →
      (crawlAll env baseFolder st urls)[j]? = some oj →
      oj.trace = [.out 55, .out 167, .wgDone] := by
  intro urls
  induction urls with
  | nil => intro st i j ui uj oj _ h; simp at h
  | cons u rest ih =>
    intro st i j ui uj oj hij hi hj he ho
    cases j with
    | zero => omega
    | succ j =>
      simp only [List.getElem?_cons_succ] at hj
      simp only [crawlAll, List.getElem?_cons_succ] at ho
      cases i with
      | zero =>
        simp only [List.getElem?_cons_zero, Option.some.injEq] at hi
        subst hi
        exact crawlAll_no_refetch env baseFolder rest _ j uj oj hj
          (he ▸ crawl_marks env st u baseFolder) ho
      | succ i =>
        simp only [List.getElem?_cons_succ] at hi
        exact ih _ i j ui uj oj (by omega) hi hj he ho

/-- C1: a crawl of a URL whose key is not in the visited set stores the key and,
a limiter slot being free, issues the fetch; a crawl of a URL whose key is in
the set issues no fetch, changes nothing on the file system, starts no task
and leaves the set as it is; so of the crawls of one URL in a sequence of
crawls, none after the first fetches. -/
theorem crawl_fetches_on_first_claim_only (env : Env) (st : State) (url : URL)
    (baseFolder : String) :
    (urlString url ∉ st.visited →
      urlString url ∈ (crawl env st url baseFolder).st.visited ∧
      (st.held < env.workers →
        Event.fetch (urlString url) ∈ (crawl env st url baseFolder).trace)) ∧
    (urlString url ∈ st.visited →
      (∀ e ∈ (crawl env st url baseFolder).trace,
        e.isFetch = false ∧ e.mutatesFS = false ∧ e.isSpawn = false) ∧
      (crawl env st url baseFolder).st.fs = st.fs ∧
      (crawl env st url baseFolder).st.visited = st.visited ∧
      (crawl env st url baseFolder).ending = .returned) ∧
    (∀ (urls : List URL) (i j : Nat) (ui uj : URL) (oj : Outcome),
      i < j → urls[i]? = some ui → urls[j]? = some uj → urlString ui = urlString uj →
      (crawlAll env baseFolder st urls)[j]? = some oj →
      ∀ e ∈ oj.trace, e.isFetch = false ∧ e.mutatesFS = false ∧ e.isSpawn = false) := by
  refine ⟨fun hk => ⟨crawl_marks env st url baseFolder,
    crawl_fetch_of_free env st url baseFolder hk⟩, fun hk => ?_, ?_⟩
  · rw [crawl_visited_of_mem env st url baseFolder hk]
    simp [Event.isFetch, Event.mutatesFS, Event.isSpawn]
  · intro urls i j ui uj oj hij hi hj he ho
    rw [crawlAll_second_is_noop env baseFolder urls st i j ui uj oj hij hi hj he ho]
    simp [Event.isFetch, Event.mutatesFS, Event.isSpawn]

/-- C2, as stated, fails: `https://host/a.txt` and `https://host/a.txt#top`
normalize to the same URL, and crawled one after the other from an empty
visited set each is a first claim, and each is fetched. -/
theorem same_canonical_url_claimed_twice :
    normalize false (sampleURL "/a.txt") =
      normalize false { sampleURL "/a.txt" with Fragment := "top" } ∧
    firstClaim emptyState (sampleURL "/a.txt") = true ∧
    firstClaim (crawl (sampleEnv (fun _ => none) []) emptyState (sampleURL "/a.txt")
      "/tmp/test").st { sampleURL "/a.txt" with Fragment := "top" } = true ∧
    Event.fetch "https://host/a.txt" ∈
      (crawl (sampleEnv (fun _ => none) []) emptyState (sampleURL "/a.txt") "/tmp/test").trace ∧
    Event.fetch "https://host/a.txt#top" ∈
      (crawl (sampleEnv (fun _ => none) [])
        (crawl (sampleEnv (fun _ => none) []) emptyState (sampleURL "/a.txt") "/tmp/test").st
        { sampleURL "/a.txt" with Fragment := "top" } "/tmp/test").trace := by
  refine ⟨by decide, by decide, by decide, by decide, by decide⟩

/-- C2, amended: of two URLs with the same string, crawled one after the other
from a visited set that does not hold it, the first is a first claim and the
second is not; a URL with another string is a first claim after the crawl
exactly when it was one before. -/
theorem same_string_claimed_once (env : Env) (st : State) (u1 u2 : URL) (baseFolder : String)
    (hnew : urlString u1 ∉ st.visited) :
    (urlString u1 = urlString u2 →
      firstClaim st u1 = true ∧ firstClaim (crawl env st u1 baseFolder).st u2 = false) ∧
    (urlString u1 ≠ urlString u2 →
      firstClaim (crawl env st u1 baseFolder).st u2 = firstClaim st u2) := by
  constructor
  · intro he
    have hm := crawl_marks env st u1 baseFolder
    rw [he] at hm
    simp [firstClaim, LoadOrStore, hnew, hm]
  · intro hne
    have hne2 : ¬ urlString u2 = urlString u1 := fun h => hne h.symm
    simp only [firstClaim, crawl_visited_eq, LoadOrStore, hnew, if_false, List.mem_cons, hne2,
      false_or]
    split <;> rfl

theorem same_string_claimed_once_witness :
    urlString (sampleURL "/a.txt") ∉ emptyState.visited ∧
    ((urlString (sampleURL "/a.txt") = urlString (sampleURL "/a.txt") →
      firstClaim emptyState (sampleURL "/a.txt") = true ∧
      firstClaim (crawl (sampleEnv (fun _ => none) []) emptyState (sampleURL "/a.txt")
        "/tmp/test").st (sampleURL "/a.txt") = false) ∧
    (urlString (sampleURL "/a.txt") ≠ urlString (sampleURL "/a.txt") →
      firstClaim (crawl (sampleEnv (fun _ => none) []) emptyState (sampleURL "/a.txt")
        "/tmp/test").st (sampleURL "/a.txt") = firstClaim emptyState (sampleURL "/a.txt"))) :=
  ⟨by decide, same_string_claimed_once (sampleEnv (fun _ => none) []) emptyState
    (sampleURL "/a.txt") (sampleURL "/a.txt") "/tmp/test" (by decide)⟩

theorem get_ret_of_failure (env : Env) (held : Nat) (url : URL)
    (h : env.httpGet (urlString url) = none ∨
      ∃ resp, env.httpGet (urlString url) = some resp ∧
        (env.isURLOutOfBoundary resp.RequestURL = true ∨
          resp.StatusCode < 200 ∨ 299 < resp.StatusCode)) :
    (get env held url).ret = none ∨ (∃ u, (get env held url).ret = some (.error u)) ∨
      ∃ resp u, (get env held url).ret = some (.ok resp u) ∧ statusOK resp.StatusCode = false := by
  unfold get
  dsimp only
  split
  · rcases h with h | ⟨resp, h, hr⟩
    · rw [h]; exact Or.inr (Or.inl ⟨url, rfl⟩)
    · rw [h]
      dsimp only
      split
      · exact Or.inr (Or.inl ⟨_, rfl⟩)
      · rename_i hb
        refine Or.inr (Or.inr ⟨resp, _, rfl, ?_⟩)
        rcases hr with hr | hr | hr
        · exact absurd hr hb
        · simp only [statusOK, Bool.and_eq_false_iff, decide_eq_false_iff_not]
          left; omega
        · simp only [statusOK, Bool.and_eq_false_iff, decide_eq_false_iff_not]
          right; omega
  · exact Or.inl rfl

theorem get_fetch_count (env : Env) (held : Nat) (url : URL) :
    ((get env held url).trace.filter Event.isFetch).length ≤ 1 := by
  unfold get
  dsimp only
  split
  · split
    · simp [Event.isFetch, List.filter]
    · split <;> simp [Event.isFetch, List.filter]
  · simp

theorem spawnedBy_append (a b : List Event) :
    spawnedBy (a ++ b) = spawnedBy a ++ spawnedBy b := by
  induction a with
  | nil => rfl
  | cons e rest ih => cases e <;> simp [spawnedBy, ih]

theorem spawnedBy_eq_nil (t : List Event) (h : ∀ e ∈ t, e.isSpawn = false) :
    spawnedBy t = [] := by
  induction t with
  | nil => rfl
  | cons e rest ih =>
    have he := h e (List.mem_cons_self _ _)
    have hr := ih (fun x hx => h x (List.mem_cons_of_mem _ hx))
    cases e <;> simp_all [spawnedBy, Event.isSpawn]

theorem crawl_of_failure (env : Env) (st : State) (url : URL) (baseFolder : String)
    (h : env.httpGet (urlString url) = none ∨
      ∃ resp, env.httpGet (urlString url) = some resp ∧
        (env.isURLOutOfBoundary resp.RequestURL = true ∨
          resp.StatusCode < 200 ∨ 299 < resp.StatusCode)) :
    (crawl env st url baseFolder).st.fs = st.fs ∧
    (crawl env st url baseFolder).ending ≠ .panicked ∧
    ((crawl env st url baseFolder).trace = [.out 55, .out 167, .wgDone] ∨
      (crawl env st url baseFolder).trace = .out 55 :: (get env st.held url).trace ∨
      (crawl env st url baseFolder).trace =
        .out 55 :: (get env st.held url).trace ++ [.log 59, .wgDone] ∨
      (crawl env st url baseFolder).trace =
        .out 55 :: (get env st.held url).trace ++ [.out 64, .log 67, .bodyClose, .wgDone]) := by
  have hr := get_ret_of_failure env st.held url h
  unfold crawl
  dsimp only
  split
  · rcases hr with hr | ⟨u, hr⟩ | ⟨resp, u, hr, hs⟩
    · rw [hr]; simp
    · rw [hr]; simp
    · rw [hr]; simp [hs]
  · simp

/-- C7: a task whose fetch returns a transport error, whose final URL is out of
boundary, or whose final status is below 200 or above 299 changes nothing on
the file system, starts no task and issues at most the one fetch; 199 and 300
are not OK statuses, 200 and 299 are. -/
theorem crawl_failed_fetch_is_abandoned (env : Env) (st : State) (url : URL)
    (baseFolder : String)
    (h : env.httpGet (urlString url) = none ∨
      ∃ resp, env.httpGet (urlString url) = some resp ∧
        (env.isURLOutOfBoundary resp.RequestURL = true ∨
          resp.StatusCode < 200 ∨ 299 < resp.StatusCode)) :
    (crawl env st url baseFolder).st.fs = st.fs ∧
    (∀ e ∈ (crawl env st url baseFolder).trace, e.mutatesFS = false ∧ e.isSpawn = false) ∧
    spawnedBy (crawl env st url baseFolder).trace = [] ∧
    ((crawl env st url baseFolder).trace.filter Event.isFetch).length ≤ 1 ∧
    (crawl env st url baseFolder).ending ≠ .panicked ∧
    statusOK 199 = false ∧ statusOK 300 = false ∧ statusOK 200 = true ∧ statusOK 299 = true := by
  have hq := get_trace_no_spawn env st.held url
  have hc := get_fetch_count env st.held url
  obtain ⟨hfs, hend, ht⟩ := crawl_of_failure env st url baseFolder h
  have hquiet : ∀ e ∈ (crawl env st url baseFolder).trace,
      e.mutatesFS = false ∧ e.isSpawn = false := by
    rcases ht with ht | ht | ht | ht <;> rw [ht] <;>
      simp only [List.forall_mem_cons, List.forall_mem_append, List.cons_append,
        List.nil_append] <;>
      repeat' apply And.intro
    all_goals first | rfl | exact hq | (intro e he; cases he)
  refine ⟨hfs, hquiet, spawnedBy_eq_nil _ (fun e he => (hquiet e he).2), ?_, hend,
    by decide, by decide, by decide, by decide⟩
  rcases ht with ht | ht | ht | ht <;> rw [ht]
  · simp [List.filter, Event.isFetch]
  · simpa [List.filter, Event.isFetch] using hc
  · simpa [List.filter, Event.isFetch] using hc
  · simpa [List.filter, Event.isFetch] using hc

theorem crawl_failed_fetch_is_abandoned_witness :
    ((sampleEnv (fun _ => some { fileResponse "/a.txt" [] with StatusCode := 404 }) []).httpGet
        (urlString (sampleURL "/a.txt")) = none ∨
      ∃ resp, (sampleEnv (fun _ => some { fileResponse "/a.txt" [] with StatusCode := 404 })
          []).httpGet (urlString (sampleURL "/a.txt")) = some resp ∧
        ((sampleEnv (fun _ => some { fileResponse "/a.txt" [] with StatusCode := 404 })
          []).isURLOutOfBoundary resp.RequestURL = true ∨
          resp.StatusCode < 200 ∨ 299 < resp.StatusCode)) ∧
    spawnedBy (crawl (sampleEnv (fun _ => some { fileResponse "/a.txt" [] with StatusCode := 404 })
      []) emptyState (sampleURL "/a.txt") "/tmp/test").trace = [] ∧
    (crawl (sampleEnv (fun _ => some { fileResponse "/a.txt" [] with StatusCode := 404 })
      []) emptyState (sampleURL "/a.txt") "/tmp/test").st.fs = emptyState.fs :=
  have h : (sampleEnv (fun _ => some { fileResponse "/a.txt" [] with StatusCode := 404 })
      []).httpGet (urlString (sampleURL "/a.txt")) = none ∨
      ∃ resp, (sampleEnv (fun _ => some { fileResponse "/a.txt" [] with StatusCode := 404 })
          []).httpGet (urlString (sampleURL "/a.txt")) = some resp ∧
        ((sampleEnv (fun _ => some { fileResponse "/a.txt" [] with StatusCode := 404 })
          []).isURLOutOfBoundary resp.RequestURL = true ∨
          resp.StatusCode < 200 ∨ 299 < resp.StatusCode) :=
    Or.inr ⟨{ fileResponse "/a.txt" [] with StatusCode := 404 }, rfl, Or.inr (Or.inr (by decide))⟩
  ⟨h, (crawl_failed_fetch_is_abandoned _ emptyState (sampleURL "/a.txt") "/tmp/test" h).2.2.1,
    (crawl_failed_fetch_is_abandoned _ emptyState (sampleURL "/a.txt") "/tmp/test" h).1⟩

theorem heldAfter_append (a b : List Event) (h : Nat) :
    heldAfter h (a ++ b) = heldAfter (heldAfter h a) b := by
  induction a generalizing h with
  | nil => rfl
  | cons e rest ih => cases e <;> simp [heldAfter, ih]

theorem heldAfter_of_no_token (t : List Event) (h : Nat)
    (ht : ∀ e ∈ t, e.isToken = false) : heldAfter h t = h := by
  induction t with
  | nil => rfl
  | cons e rest ih =>
    have he := ht e (List.mem_cons_self _ _)
    have hr := ih (fun x hx => ht x (List.mem_cons_of_mem _ hx))
    cases e <;> simp_all [heldAfter, Event.isToken]

theorem removeLoop_events (env : Env) (folderPath : String) (names : List String) :
    ∀ fs, ∀ e ∈ (removeLoop env folderPath fs names).2,
      e.isToken = false ∧ e.isFetch = false ∧ e.isWg = false ∧ e ≠ .bodyRead := by
  induction names with
  | nil => intro fs e he; simp [removeLoop] at he
  | cons name rest ih =>
    intro fs e he
    unfold removeLoop at he
    dsimp only at he
    split at he
    · simp only [List.mem_cons] at he
      rcases he with he | he | he
      · subst he; simp [Event.isToken, Event.isFetch, Event.isWg]
      · subst he; simp [Event.isToken, Event.isFetch, Event.isWg]
      · exact ih _ e he
    · simp only [List.mem_cons] at he
      rcases he with he | he | he
      · subst he; simp [Event.isToken, Event.isFetch, Event.isWg]
      · subst he; simp [Event.isToken, Event.isFetch, Event.isWg]
      · exact ih _ e he

theorem syncLoop_events (env : Env) (baseFolder : String) (hrefs : List String) :
    ∀ e ∈ syncLoop env baseFolder hrefs,
      e.isToken = false ∧ e.isFetch = false ∧ e ≠ .wgDone ∧ e ≠ .bodyRead ∧
        e.mutatesFS = false := by
  induction hrefs with
  | nil => intro e he; simp [syncLoop] at he
  | cons href rest ih =>
    intro e he
    unfold syncLoop at he
    split at he
    · simp only [List.mem_cons] at he
      rcases he with he | he
      · subst he; simp [Event.isToken, Event.isFetch, Event.mutatesFS]
      · exact ih e he
    · simp only [List.mem_cons] at he
      rcases he with he | he | he | he
      · subst he; simp [Event.isToken, Event.isFetch, Event.mutatesFS]
      · subst he; simp [Event.isToken, Event.isFetch, Event.mutatesFS]
      · subst he; simp [Event.isToken, Event.isFetch, Event.mutatesFS]
      · exact ih e he

theorem classify_events (env : Env) (fs : FS) (url finalURL : URL) (resp : Response)
    (baseFolder : String) :
    ∀ e ∈ (classify env fs url finalURL resp baseFolder).trace,
      e.isToken = false ∧ e.isFetch = false ∧ e ≠ .wgDone := by
  have hrm := removeLoop_events env
  have hsy := syncLoop_events env baseFolder
  unfold classify
  split
  · unfold redirect
    dsimp only
    split
    · split
      · split <;> simp [Event.isToken, Event.isFetch]
      · simp [Event.isToken, Event.isFetch]
    · simp [Event.isToken, Event.isFetch]
  · split
    · unfold listing
      dsimp only
      split
      · simp [Event.isToken, Event.isFetch]
      · split
        · simp [Event.isToken, Event.isFetch]
        · intro e he
          simp only [List.mem_append, List.mem_cons, List.not_mem_nil, or_false] at he
          rcases he with (he | he) | he
          · rcases he with he | he | he | he | he <;> subst he <;>
              simp [Event.isToken, Event.isFetch]
          · have := hrm _ _ _ e he
            refine ⟨this.1, this.2.1, ?_⟩
            intro h; subst h; simp [Event.isWg] at this
          · have := hsy _ e he
            exact ⟨this.1, this.2.1, this.2.2.1⟩
    · unfold download
      dsimp only
      split
      · split
        · simp [Event.isToken, Event.isFetch]
        · split
          · split
            · simp [Event.isToken, Event.isFetch]
            · split <;> simp [Event.isToken, Event.isFetch]
          · split <;> simp [Event.isToken, Event.isFetch]
      · simp [Event.isToken, Event.isFetch]

theorem crawl_trace_shape (env : Env) (st : State) (url : URL) (baseFolder : String) :
    ((crawl env st url baseFolder).trace = [.out 55, .out 167, .wgDone] ∧
      (crawl env st url baseFolder).st.held = st.held) ∨
    ∃ tail, (crawl env st url baseFolder).trace =
        (.out 55 :: (get env st.held url).trace) ++ tail ∧
      (crawl env st url baseFolder).st.held = (get env st.held url).held ∧
      ∀ e ∈ tail, e.isToken = false ∧ e.isFetch = false := by
  unfold crawl
  dsimp only
  split
  · right
    split
    · exact ⟨[], by simp, rfl, by simp⟩
    · exact ⟨[.log 59, .wgDone], by simp, rfl, by simp [Event.isToken, Event.isFetch]⟩
    · split
      · exact ⟨[.out 64, .log 67, .bodyClose, .wgDone], by simp, rfl,
          by simp [Event.isToken, Event.isFetch]⟩
      · rename_i resp finalURL _ _
        refine ⟨.out 64 :: (classify env st.fs url finalURL resp baseFolder).trace
          ++ [.bodyClose, .wgDone], by simp, rfl, ?_⟩
        intro e he
        simp only [List.mem_append, List.mem_cons, List.not_mem_nil, or_false] at he
        rcases he with (he | he) | he | he
        · subst he; simp [Event.isToken, Event.isFetch]
        · have := classify_events env st.fs url finalURL resp baseFolder e he
          exact ⟨this.1, this.2.1⟩
        · subst he; simp [Event.isToken, Event.isFetch]
        · subst he; simp [Event.isToken, Event.isFetch]
  · left; exact ⟨rfl, rfl⟩

theorem get_trace_shape (env : Env) (held : Nat) (url : URL) :
    (get env held url).held = held ∧
    (held < env.workers →
      (get env held url).ret ≠ none ∧
      ∃ rest, (get env held url).trace =
          .acquire :: .fetch (urlString url) :: .release :: rest ∧
        (rest = [] ∨ ∃ u, rest = [.validate u])) ∧
    (¬ held < env.workers → (get env held url).ret = none ∧ (get env held url).trace = []) := by
  unfold get
  dsimp only
  split
  · rename_i h
    refine ⟨?_, fun _ => ?_, fun hn => absurd h hn⟩
    · split
      · simp
      · split <;> simp
    · split
      · exact ⟨by simp, [], rfl, Or.inl rfl⟩
      · split
        · exact ⟨by simp, _, rfl, Or.inr ⟨_, rfl⟩⟩
        · exact ⟨by simp, _, rfl, Or.inr ⟨_, rfl⟩⟩
  · rename_i h
    exact ⟨rfl, fun hh => absurd hh h, fun _ => ⟨rfl, rfl⟩⟩

theorem get_heldAfter (env : Env) (held : Nat) (url : URL) :
    heldAfter held (get env held url).trace = held ∧
    Event.bodyRead ∉ (get env held url).trace := by
  obtain ⟨_, h1, h2⟩ := get_trace_shape env held url
  by_cases h : held < env.workers
  · obtain ⟨_, rest, ht, hr⟩ := h1 h
    rw [ht]
    rcases hr with hr | ⟨u, hr⟩ <;> subst hr <;> simp [heldAfter]
  · rw [(h2 h).2]
    simp [heldAfter]

/-- C6: a call of `get` with a free slot acquires one slot, issues the fetch and
releases the slot right after, before the boundary validation, and reads
nothing of the body; a call without a free slot waits and issues no fetch. The
number of slots held is the same after the call as before, it never exceeds
the worker count, and at every read of the body in `crawl` it is back to what
it was before the call. -/
theorem get_holds_slot_for_fetch_only (env : Env) (held : Nat) (url : URL)
    (hcap : held ≤ env.workers) :
    (get env held url).held = held ∧
    heldAfter held (get env held url).trace = held ∧
    (∀ n ∈ heldAlong held (get env held url).trace, n ≤ env.workers) ∧
    (held < env.workers →
      (get env held url).ret ≠ none ∧
      ∃ rest, (get env held url).trace =
          .acquire :: .fetch (urlString url) :: .release :: rest ∧
        (rest = [] ∨ ∃ u, rest = [.validate u])) ∧
    (¬ held < env.workers → (get env held url).ret = none ∧ (get env held url).trace = []) ∧
    Event.bodyRead ∉ (get env held url).trace ∧
    (∀ (st : State) (baseFolder : String) (pre post : List Event), st.held = held →
      (crawl env st url baseFolder).trace = pre ++ .bodyRead :: post →
      heldAfter held pre = held ∧ (crawl env st url baseFolder).st.held = held) := by
  obtain ⟨h0, h1, h2⟩ := get_trace_shape env held url
  obtain ⟨h3, h4⟩ := get_heldAfter env held url
  refine ⟨h0, h3, ?_, h1, h2, h4, ?_⟩
  · by_cases h : held < env.workers
    · obtain ⟨_, rest, ht, hr⟩ := h1 h
      rw [ht]
      rcases hr with hr | ⟨u, hr⟩ <;> subst hr <;> simp [heldAlong] <;> omega
    · rw [(h2 h).2]
      simp [heldAlong]
  · intro st baseFolder pre post hst hsplit
    subst hst
    rcases crawl_trace_shape env st url baseFolder with ⟨ht, _⟩ | ⟨tail, ht, hheld, htail⟩
    · rw [ht] at hsplit
      have : Event.bodyRead ∈ [Event.out 55, Event.out 167, Event.wgDone] := by
        rw [hsplit]; simp
      simp at this
    · rw [hheld, h0]
      refine ⟨?_, rfl⟩
      rw [ht] at hsplit
      have hP : heldAfter st.held (.out 55 :: (get env st.held url).trace) = st.held := h3
      rcases List.append_eq_append_iff.mp hsplit with ⟨a, ha, hb⟩ | ⟨c, hc, hd⟩
      · rw [ha, heldAfter_append, hP]
        apply heldAfter_of_no_token
        intro e he
        exact (htail e (by rw [hb]; simp [he])).1
      · cases c with
        | nil =>
          simp only [List.append_nil] at hc
          rw [← hc]; exact hP
        | cons y c =>
          simp only [List.cons_append, List.cons.injEq] at hd
          have hmem : Event.bodyRead ∈ Event.out 55 :: (get env st.held url).trace := by
            rw [hc, hd.1]; simp
          simp only [List.mem_cons] at hmem
          rcases hmem with hmem | hmem
          · cases hmem
          · exact absurd hmem h4

theorem get_holds_slot_for_fetch_only_witness :
    (0 : Nat) ≤ (sampleEnv (fun _ => none) []).workers ∧
    (∀ n ∈ heldAlong 0 (get (sampleEnv (fun _ => none) []) 0 (sampleURL "/a.txt")).trace,
      n ≤ (sampleEnv (fun _ => none) []).workers) ∧
    (get (sampleEnv (fun _ => none) []) 0 (sampleURL "/a.txt")).trace =
      [.acquire, .fetch "https://host/a.txt", .release] :=
  ⟨by decide,
    (get_holds_slot_for_fetch_only (sampleEnv (fun _ => none) []) 0 (sampleURL "/a.txt")
      (by decide)).2.2.1, by decide⟩

theorem addThenSpawn_append (a b : List Event) (added : Bool)
    (ha : addThenSpawn added a = true) (hb : addThenSpawn false b = true) :
    addThenSpawn added (a ++ b) = true := by
  induction a generalizing added with
  | nil =>
    simp only [addThenSpawn, Bool.not_eq_true'] at ha
    subst ha
    exact hb
  | cons e rest ih =>
    cases e <;> simp only [addThenSpawn, List.cons_append, Bool.and_eq_true] at ha ⊢ <;>
      exact ⟨ha.1, ih _ ha.2⟩

theorem wgAfter_append (a b : List Event) (n : Int) :
    wgAfter n (a ++ b) = wgAfter (wgAfter n a) b := by
  induction a generalizing n with
  | nil => rfl
  | cons e rest ih => cases e <;> simp [wgAfter, ih]

theorem doneCount_append (a b : List Event) :
    doneCount (a ++ b) = doneCount a + doneCount b := by
  induction a with
  | nil => simp [doneCount]
  | cons e rest ih =>
    cases e <;> simp [doneCount, ih]
    omega

theorem balanced_nil : Balanced [] :=
  ⟨rfl, rfl, fun n => by simp [wgAfter, spawnedBy]⟩

theorem balanced_cons (e : Event) (t : List Event) (he : e.isWg = false) (ht : Balanced t) :
    Balanced (e :: t) := by
  obtain ⟨h1, h2, h3⟩ := ht
  cases e <;> simp_all [Balanced, addThenSpawn, doneCount, wgAfter, spawnedBy, Event.isWg]

theorem balanced_spawn (u : URL) (b : String) (t : List Event) (ht : Balanced t) :
    Balanced (.wgAdd :: .spawn u b :: t) := by
  obtain ⟨h1, h2, h3⟩ := ht
  refine ⟨by simp [addThenSpawn, h1], by simp [doneCount, h2], fun n => ?_⟩
  simp only [wgAfter, spawnedBy, h3, List.length_cons]
  push_cast
  ring

theorem balanced_append (a b : List Event) (ha : Balanced a) (hb : Balanced b) :
    Balanced (a ++ b) := by
  obtain ⟨a1, a2, a3⟩ := ha
  obtain ⟨b1, b2, b3⟩ := hb
  refine ⟨addThenSpawn_append a b false a1 b1, by rw [doneCount_append, a2, b2], fun n => ?_⟩
  rw [wgAfter_append, a3, b3, spawnedBy_append, List.length_append]
  push_cast
  ring

theorem balanced_of_no_wg (t : List Event) (h : ∀ e ∈ t, e.isWg = false) : Balanced t := by
  induction t with
  | nil => exact balanced_nil
  | cons e rest ih =>
    exact balanced_cons e rest (h e (List.mem_cons_self _ _))
      (ih (fun x hx => h x (List.mem_cons_of_mem _ hx)))

theorem balanced_syncLoop (env : Env) (baseFolder : String) (hrefs : List String) :
    Balanced (syncLoop env baseFolder hrefs) := by
  induction hrefs with
  | nil => exact balanced_nil
  | cons href rest ih =>
    unfold syncLoop
    split
    · exact balanced_cons _ _ rfl ih
    · exact balanced_cons _ _ rfl (balanced_spawn _ _ _ ih)

theorem balanced_mainLoop (urls : List URL) : Balanced (mainLoop urls) := by
  induction urls with
  | nil => exact balanced_nil
  | cons u rest ih => exact balanced_spawn _ _ _ ih

theorem balanced_get (env : Env) (held : Nat) (url : URL) :
    Balanced (get env held url).trace := by
  apply balanced_of_no_wg
  unfold get
  dsimp only
  split
  · split
    · simp [Event.isWg]
    · split <;> simp [Event.isWg]
  · simp

theorem balanced_classify (env : Env) (fs : FS) (url finalURL : URL) (resp : Response)
    (baseFolder : String) :
    Balanced (classify env fs url finalURL resp baseFolder).trace := by
  unfold classify
  split
  · unfold redirect
    dsimp only
    split
    · split
      · split
        · exact balanced_cons _ _ rfl (balanced_cons _ _ rfl (balanced_cons _ _ rfl
            (balanced_spawn _ _ _ balanced_nil)))
        · exact balanced_cons _ _ rfl (balanced_cons _ _ rfl (balanced_cons _ _ rfl
            (balanced_cons _ _ rfl (balanced_spawn _ _ _ balanced_nil))))
        · exact balanced_of_no_wg _ (by simp [Event.isWg])
      · exact balanced_cons _ _ rfl (balanced_spawn _ _ _ balanced_nil)
    · exact balanced_spawn _ _ _ balanced_nil
  · split
    · unfold listing
      dsimp only
      split
      · exact balanced_of_no_wg _ (by simp [Event.isWg])
      · split
        · exact balanced_of_no_wg _ (by simp [Event.isWg])
        · apply balanced_append
          · apply balanced_append
            · exact balanced_of_no_wg _ (by simp [Event.isWg])
            · exact balanced_of_no_wg _
                (fun e he => (removeLoop_events env _ _ _ e he).2.2.1)
          · exact balanced_syncLoop env baseFolder _
    · apply balanced_of_no_wg
      unfold download
      dsimp only
      split
      · split
        · simp [Event.isWg]
        · split
          · split
            · simp [Event.isWg]
            · split <;> simp [Event.isWg]
          · split <;> simp [Event.isWg]
      · simp [Event.isWg]

theorem crawl_wg (env : Env) (st : State) (url : URL) (baseFolder : String) :
    ((crawl env st url baseFolder).ending = .blocked ∧
      Balanced (crawl env st url baseFolder).trace) ∨
    ((crawl env st url baseFolder).ending ≠ .blocked ∧
      ∃ t, (crawl env st url baseFolder).trace = t ++ [.wgDone] ∧ Balanced t) := by
  have hg := balanced_get env st.held url
  unfold crawl
  dsimp only
  split
  · split
    · left
      exact ⟨rfl, balanced_cons _ _ rfl hg⟩
    · right
      refine ⟨by simp, .out 55 :: (get env st.held url).trace ++ [.log 59], by simp, ?_⟩
      exact balanced_append _ _ (balanced_cons _ _ rfl hg) (balanced_of_no_wg _ (by simp [Event.isWg]))
    · split
      · right
        refine ⟨by simp, .out 55 :: (get env st.held url).trace ++ [.out 64, .log 67, .bodyClose],
          by simp, ?_⟩
        exact balanced_append _ _ (balanced_cons _ _ rfl hg)
          (balanced_of_no_wg _ (by simp [Event.isWg]))
      · rename_i resp finalURL _ _
        right
        refine ⟨by split <;> simp, .out 55 :: (get env st.held url).trace ++ .out 64 ::
          (classify env st.fs url finalURL resp baseFolder).trace ++ [.bodyClose], by simp, ?_⟩
        apply balanced_append
        · apply balanced_append
          · exact balanced_cons _ _ rfl hg
          · exact balanced_cons _ _ rfl (balanced_classify _ _ _ _ _ _)
        · exact balanced_of_no_wg _ (by simp [Event.isWg])
  · right
    exact ⟨by simp, [.out 55, .out 167], rfl, balanced_of_no_wg _ (by simp [Event.isWg])⟩

theorem crawl_wgAfter (env : Env) (st : State) (url : URL) (baseFolder : String) (n : Int) :
    wgAfter n (crawl env st url baseFolder).trace =
      n + (spawnedBy (crawl env st url baseFolder).trace).length -
        (if (crawl env st url baseFolder).ending = .blocked then 0 else 1) := by
  rcases crawl_wg env st url baseFolder with ⟨hb, hbal⟩ | ⟨hb, t, ht, hbal⟩
  · rw [hbal.2.2 n, if_pos hb]; ring
  · rw [if_neg hb, ht, wgAfter_append, hbal.2.2 n, spawnedBy_append]
    simp [wgAfter, spawnedBy]

theorem stepTask_counts (env : Env) (s : Sys) (i : Nat) (hi : i < s.pending.length)
    (h : s.wg = s.pending.length + s.waiting.length) :
    (stepTask env s i).wg = (stepTask env s i).pending.length + (stepTask env s i).waiting.length := by
  unfold stepTask
  rw [List.getElem?_eq_getElem hi]
  dsimp only
  rw [crawl_wgAfter, List.length_append, List.length_eraseIdx_of_lt hi, h]
  have hpos : 1 ≤ s.pending.length := by omega
  split
  · simp only [List.length_cons]
    push_cast [hpos]
    ring
  · push_cast [hpos]
    ring

theorem reachable_counts (env : Env) (init s : Sys)
    (h0 : init.wg = init.pending.length + init.waiting.length) (hr : Reachable env init s) :
    s.wg = s.pending.length + s.waiting.length := by
  induction hr with
  | start => exact h0
  | step s i _ _ hi ih => exact stepTask_counts env s i hi ih

theorem mainInit_counts (env : Env) (fs : FS) :
    (mainInit env fs).wg =
      (mainInit env fs).pending.length + (mainInit env fs).waiting.length := by
  have h := (balanced_mainLoop (seedList env)).2.2 0
  simp only [mainInit, h, List.length_nil]
  push_cast
  ring

theorem wgAfter_at_every_point (pre : List Event) :
    ∀ (post : List Event) (added : Bool) (n : Int),
      addThenSpawn added (pre ++ post) = true →
      wgAfter n pre = n + (spawnedBy pre).length - doneCount pre
        + (if addPending added pre then 1 else 0) - (if added then 1 else 0) := by
  induction pre with
  | nil =>
    intro post added n _
    simp [wgAfter, spawnedBy, doneCount, addPending]
  | cons e rest ih =>
    intro post added n h
    cases e
    case wgAdd =>
      simp only [List.cons_append, addThenSpawn, Bool.and_eq_true, Bool.not_eq_true'] at h
      rw [h.1]
      simp only [wgAfter, spawnedBy, doneCount, addPending, ih post true (n + 1) h.2,
        Bool.false_eq_true, if_false, if_true]
      ring
    case spawn u b =>
      simp only [List.cons_append, addThenSpawn, Bool.and_eq_true] at h
      rw [h.1]
      simp only [wgAfter, spawnedBy, doneCount, addPending, ih post false n h.2,
        List.length_cons, Bool.false_eq_true, if_false, if_true]
      push_cast
      ring
    case wgDone =>
      simp only [List.cons_append, addThenSpawn, Bool.and_eq_true, Bool.not_eq_true'] at h
      rw [h.1]
      simp only [wgAfter, spawnedBy, doneCount, addPending, ih post false (n - 1) h.2,
        Bool.false_eq_true, if_false, if_true]
      push_cast
      ring
    all_goals
      simp only [List.cons_append, addThenSpawn, Bool.and_eq_true, Bool.not_eq_true'] at h
      rw [h.1]
      simp only [wgAfter, spawnedBy, doneCount, addPending, ih post false n h.2]

theorem crawl_addThenSpawn (env : Env) (st : State) (url : URL) (baseFolder : String) :
    addThenSpawn false (crawl env st url baseFolder).trace = true := by
  rcases crawl_wg env st url baseFolder with ⟨_, hbal⟩ | ⟨_, t, ht, hbal⟩
  · exact hbal.1
  · rw [ht]; exact addThenSpawn_append _ _ _ hbal.1 rfl

/-- C5: in every run that `main` starts, whichever tasks have run so far and in
whichever order, the counter of `wg` is the number of tasks started and not
finished (those not yet run and those waiting in `get`), so it is zero exactly
when there is none; `main` and `crawl` call `wg.Add(1)` right before each
`go crawl`, and every `crawl` that ends calls `wg.Done()` exactly once, as its
last step; so at every point of the loop of `main` and of a `crawl` the counter
has grown by the tasks started so far, less one once the task itself is
finished, plus one between a `wg.Add(1)` and its `go crawl`. -/
theorem wg_counts_unfinished_tasks (env : Env) (fs : FS) (workersNum : Int) (s : Sys)
    (hr : Reachable (mainEnv env workersNum) (mainInit env fs) s) :
    s.wg = s.pending.length + s.waiting.length ∧
    (s.wg = 0 ↔ s.pending = [] ∧ s.waiting = []) ∧
    addThenSpawn false (mainLoop (seedList env)) = true ∧
    doneCount (mainLoop (seedList env)) = 0 ∧
    (∀ (pre post : List Event) (n : Int), mainLoop (seedList env) = pre ++ post →
      wgAfter n pre = n + (spawnedBy pre).length - doneCount pre
        + (if addPending false pre then 1 else 0)) ∧
    (∀ (e : Env) (st : State) (url : URL) (baseFolder : String),
      addThenSpawn false (crawl e st url baseFolder).trace = true ∧
      doneCount (crawl e st url baseFolder).trace =
        (if (crawl e st url baseFolder).ending = .blocked then 0 else 1) ∧
      ((crawl e st url baseFolder).ending ≠ .blocked →
        (crawl e st url baseFolder).trace.getLast? = some .wgDone) ∧
      (∀ (pre post : List Event) (n : Int), (crawl e st url baseFolder).trace = pre ++ post →
        wgAfter n pre = n + (spawnedBy pre).length - doneCount pre
          + (if addPending false pre then 1 else 0))) := by
  have hc := reachable_counts _ _ s (mainInit_counts env fs) hr
  refine ⟨hc, ?_, (balanced_mainLoop _).1, (balanced_mainLoop _).2.1, ?_, ?_⟩
  · rw [hc]
    constructor
    · intro h
      have h1 : s.pending.length = 0 := by omega
      have h2 : s.waiting.length = 0 := by omega
      exact ⟨List.length_eq_zero.mp h1, List.length_eq_zero.mp h2⟩
    · rintro ⟨h1, h2⟩
      simp [h1, h2]
  · intro pre post n hsplit
    have h := wgAfter_at_every_point pre post false n (hsplit ▸ (balanced_mainLoop _).1)
    simpa using h
  · intro e st url baseFolder
    refine ⟨crawl_addThenSpawn e st url baseFolder, ?_, ?_, ?_⟩
    · rcases crawl_wg e st url baseFolder with ⟨hb, hbal⟩ | ⟨hb, t, ht, hbal⟩
      · rw [if_pos hb]; exact hbal.2.1
      · rw [if_neg hb, ht, doneCount_append, hbal.2.1]; rfl
    · intro hnb
      rcases crawl_wg e st url baseFolder with ⟨hb, _⟩ | ⟨_, t, ht, _⟩
      · exact absurd hb hnb
      · rw [ht]; simp
    · intro pre post n hsplit
      have h := wgAfter_at_every_point pre post false n
        (hsplit ▸ crawl_addThenSpawn e st url baseFolder)
      simpa using h

theorem wg_counts_unfinished_tasks_witness :
    Reachable (mainEnv (sampleEnv (fun _ => none) []) 1)
      (mainInit (sampleEnv (fun _ => none) []) (fun _ => none))
      (stepTask (mainEnv (sampleEnv (fun _ => none) []) 1)
        (mainInit (sampleEnv (fun _ => none) []) (fun _ => none)) 0) ∧
    (stepTask (mainEnv (sampleEnv (fun _ => none) []) 1)
      (mainInit (sampleEnv (fun _ => none) []) (fun _ => none)) 0).wg = 0 ∧
    (mainInit (sampleEnv (fun _ => none) []) (fun _ => none)).wg = 1 :=
  ⟨Reachable.step _ 0 Reachable.start rfl (by decide),
    ((wg_counts_unfinished_tasks (sampleEnv (fun _ => none) []) (fun _ => none) 1 _
      (Reachable.step _ 0 Reachable.start rfl (by decide))).2.1).mpr ⟨by decide, by decide⟩,
    by decide⟩

theorem crawl_download (env : Env) (st : State) (url : URL) (baseFolder : String)
    (resp : Response)
    (hnew : urlString url ∉ st.visited) (hfree : st.held < env.workers)
    (hget : env.httpGet (urlString url) = some resp)
    (hin : env.isURLOutOfBoundary resp.RequestURL = false)
    (hok : statusOK resp.StatusCode = true)
    (hsame : urlString url = urlString (env.sanitizeURL resp.RequestURL))
    (hfile : env.IsHTML resp.Header = false) :
    (crawl env st url baseFolder).st.fs =
      (download env st.fs (env.sanitizeURL resp.RequestURL) resp baseFolder).fs ∧
    (crawl env st url baseFolder).trace =
      [.out 55, .acquire, .fetch (urlString url), .release, .validate resp.RequestURL, .out 64]
        ++ (download env st.fs (env.sanitizeURL resp.RequestURL) resp baseFolder).trace
        ++ [.bodyClose, .wgDone] := by
  have hg : get env st.held url =
      { held := st.held + 1 - 1
        trace := [.acquire, .fetch (urlString url), .release, .validate resp.RequestURL]
        ret := some (.ok resp (env.sanitizeURL resp.RequestURL)) } := by
    simp [get, hfree, hget, hin]
  simp [crawl, LoadOrStore, hnew, hg, hok, classify, hsame.symm, hfile]

theorem download_wet (env : Env) (fs : FS) (finalURL : URL) (resp : Response)
    (baseFolder : String) (p : String) (hp : downloadPathOf env finalURL baseFolder = p)
    (hdry : env.dry = false)
    (htmp : ∀ rnd, env.tempFile fs (Dir p) (Base p) = some rnd → outNameOf p rnd ≠ p) :
    ((download env fs finalURL resp baseFolder).fs p = fs p ∨
      (download env fs finalURL resp baseFolder).fs p = some (.file resp.Body)) ∧
    (fs p ≠ none → (download env fs finalURL resp baseFolder).fs = fs) ∧
    (env.tempFile fs (Dir p) (Base p) = none →
      (download env fs finalURL resp baseFolder).fs = fs) ∧
    (env.copyFails resp.Body ≠ none →
      (download env fs finalURL resp baseFolder).fs p = fs p) ∧
    (∀ rnd, fs p = none → env.tempFile fs (Dir p) (Base p) = some rnd →
      (download env fs finalURL resp baseFolder).fs (outNameOf p rnd) = none ∧
      (env.copyFails resp.Body = none →
        (env.renameFails (writeNode (writeNode fs (outNameOf p rnd) (.file []))
            (outNameOf p rnd) (.file resp.Body)) (outNameOf p rnd) p = true →
          (download env fs finalURL resp baseFolder).fs p = fs p) ∧
        (env.renameFails (writeNode (writeNode fs (outNameOf p rnd) (.file []))
            (outNameOf p rnd) (.file resp.Body)) (outNameOf p rnd) p = false →
          (download env fs finalURL resp baseFolder).fs p = some (.file resp.Body)))) := by
  unfold download
  simp only [hp, hdry, statNotExist]
  cases hfp : fs p with
  | some n => simp [hfp]
  | none =>
    simp only [Option.isNone_none, if_true]
    cases ht : env.tempFile fs (Dir p) (Base p) with
    | none => simp [hfp]
    | some rnd =>
      have hne := htmp rnd ht
      have hne2 : ¬ p = outNameOf p rnd := fun h => hne h.symm
      simp only [Bool.not_false, if_true]
      cases hc : env.copyFails resp.Body with
      | some n => simp [removeNode, writeNode, hne2, hfp]
      | none =>
        simp only
        split <;> simp_all [removeNode, writeNode, rename]

/-- C4: after a Downloading task with dry-run off, the entry at the final path
is what was there before or a file with the whole response body: nothing on
the file system changes when an entry was there or the temporary file could
not be created, the final path is as before when the copy or the rename
failed, and it holds the whole body when all succeeded; the temporary file of
the task is gone in every case. -/
theorem download_leaves_old_entry_or_whole_body (env : Env) (st : State) (url : URL)
    (baseFolder : String) (resp : Response) (p : String)
    (hnew : urlString url ∉ st.visited) (hfree : st.held < env.workers)
    (hget : env.httpGet (urlString url) = some resp)
    (hin : env.isURLOutOfBoundary resp.RequestURL = false)
    (hok : statusOK resp.StatusCode = true)
    (hsame : urlString url = urlString (env.sanitizeURL resp.RequestURL))
    (hfile : env.IsHTML resp.Header = false)
    (hdry : env.dry = false)
    (hp : downloadPathOf env (env.sanitizeURL resp.RequestURL) baseFolder = p)
    (htmp : ∀ rnd, env.tempFile st.fs (Dir p) (Base p) = some rnd → outNameOf p rnd ≠ p) :
    ((crawl env st url baseFolder).st.fs p = st.fs p ∨
      (crawl env st url baseFolder).st.fs p = some (.file resp.Body)) ∧
    (st.fs p ≠ none → (crawl env st url baseFolder).st.fs = st.fs) ∧
    (env.tempFile st.fs (Dir p) (Base p) = none → (crawl env st url baseFolder).st.fs = st.fs) ∧
    (env.copyFails resp.Body ≠ none → (crawl env st url baseFolder).st.fs p = st.fs p) ∧
    (∀ rnd, st.fs p = none → env.tempFile st.fs (Dir p) (Base p) = some rnd →
      (crawl env st url baseFolder).st.fs (outNameOf p rnd) = none ∧
      (env.copyFails resp.Body = none →
        (env.renameFails (writeNode (writeNode st.fs (outNameOf p rnd) (.file []))
            (outNameOf p rnd) (.file resp.Body)) (outNameOf p rnd) p = true →
          (crawl env st url baseFolder).st.fs p = st.fs p) ∧
        (env.renameFails (writeNode (writeNode st.fs (outNameOf p rnd) (.file []))
            (outNameOf p rnd) (.file resp.Body)) (outNameOf p rnd) p = false →
          (crawl env st url baseFolder).st.fs p = some (.file resp.Body)))) := by
  rw [(crawl_download env st url baseFolder resp hnew hfree hget hin hok hsame hfile).1]
  exact download_wet env st.fs _ resp baseFolder p hp hdry htmp

theorem download_leaves_old_entry_or_whole_body_witness :
    (crawl (sampleEnv (fun _ => some (fileResponse "/a.txt" [104, 105])) []) emptyState
      (sampleURL "/a.txt") "/tmp/test").st.fs "/tmp/test/a.txt" = some (.file [104, 105]) ∧
    (crawl (sampleEnv (fun _ => some (fileResponse "/a.txt" [104, 105])) []) emptyState
      (sampleURL "/a.txt") "/tmp/test").st.fs (outNameOf "/tmp/test/a.txt" "123456") = none :=
  have h := download_leaves_old_entry_or_whole_body
    (sampleEnv (fun _ => some (fileResponse "/a.txt" [104, 105])) []) emptyState
    (sampleURL "/a.txt") "/tmp/test" (fileResponse "/a.txt" [104, 105]) "/tmp/test/a.txt"
    (by decide) (by decide) rfl (by decide) (by decide) (by decide) (by decide) rfl (by decide)
    (fun rnd hr => by
      have hrnd : rnd = "123456" := (Option.some.inj hr).symm
      subst hrnd
      decide)
  ⟨((h.2.2.2.2 "123456" rfl rfl).2 rfl).2 rfl, (h.2.2.2.2 "123456" rfl rfl).1⟩

theorem download_dry (env : Env) (fs : FS) (finalURL : URL) (resp : Response)
    (baseFolder : String) (p rnd : String) (hp : downloadPathOf env finalURL baseFolder = p)
    (hdry : env.dry = true) (hnone : fs p = none)
    (ht : env.tempFile fs (Dir p) (Base p) = some rnd)
    (hren : env.renameFails (writeNode fs (outNameOf p rnd) (.file [])) (outNameOf p rnd) p
      = false)
    (hne : outNameOf p rnd ≠ p) :
    (download env fs finalURL resp baseFolder).fs p = some (.file []) ∧
    (download env fs finalURL resp baseFolder).fs (outNameOf p rnd) = none ∧
    (download env fs finalURL resp baseFolder).trace =
      [.stat p, .out 137, .tempFile (Dir p) (Base p), .out 153, .rename (outNameOf p rnd) p,
        .remove (outNameOf p rnd)] := by
  have hne2 : ¬ p = outNameOf p rnd := fun h => hne h.symm
  unfold download
  simp [hp, hdry, statNotExist, hnone, ht, hren, removeNode, rename, writeNode, hne2]

/-- C10: with dry-run on, a Downloading task whose final path does not exist
and whose temporary file is created and renamed reads nothing of the response
body and leaves an empty file at the final path, the temporary name gone. -/
theorem dry_run_publishes_empty_file (env : Env) (st : State) (url : URL)
    (baseFolder : String) (resp : Response) (p rnd : String)
    (hnew : urlString url ∉ st.visited) (hfree : st.held < env.workers)
    (hget : env.httpGet (urlString url) = some resp)
    (hin : env.isURLOutOfBoundary resp.RequestURL = false)
    (hok : statusOK resp.StatusCode = true)
    (hsame : urlString url = urlString (env.sanitizeURL resp.RequestURL))
    (hfile : env.IsHTML resp.Header = false)
    (hdry : env.dry = true)
    (hp : downloadPathOf env (env.sanitizeURL resp.RequestURL) baseFolder = p)
    (hnone : st.fs p = none)
    (ht : env.tempFile st.fs (Dir p) (Base p) = some rnd)
    (hren : env.renameFails (writeNode st.fs (outNameOf p rnd) (.file [])) (outNameOf p rnd) p
      = false)
    (hne : outNameOf p rnd ≠ p) :
    Event.bodyRead ∉ (crawl env st url baseFolder).trace ∧
    Event.rename (outNameOf p rnd) p ∈ (crawl env st url baseFolder).trace ∧
    (crawl env st url baseFolder).st.fs p = some (.file []) ∧
    (crawl env st url baseFolder).st.fs (outNameOf p rnd) = none := by
  obtain ⟨hfs, htr⟩ := crawl_download env st url baseFolder resp hnew hfree hget hin hok hsame hfile
  obtain ⟨h1, h2, h3⟩ := download_dry env st.fs _ resp baseFolder p rnd hp hdry hnone ht hren hne
  rw [hfs, htr, h3]
  exact ⟨by simp, by simp, h1, h2⟩

theorem dry_run_publishes_empty_file_witness :
    Event.bodyRead ∉
      (crawl { sampleEnv (fun _ => some (fileResponse "/a.txt" [104, 105])) [] with dry := true }
        emptyState (sampleURL "/a.txt") "/tmp/test").trace ∧
    (crawl { sampleEnv (fun _ => some (fileResponse "/a.txt" [104, 105])) [] with dry := true }
      emptyState (sampleURL "/a.txt") "/tmp/test").st.fs "/tmp/test/a.txt" = some (.file []) :=
  have h := dry_run_publishes_empty_file
    { sampleEnv (fun _ => some (fileResponse "/a.txt" [104, 105])) [] with dry := true }
    emptyState (sampleURL "/a.txt") "/tmp/test" (fileResponse "/a.txt" [104, 105])
    "/tmp/test/a.txt" "123456"
    (by decide) (by decide) rfl (by decide) (by decide) (by decide) (by decide) rfl (by decide)
    rfl rfl rfl (by decide)
  ⟨h.1, h.2.2.1⟩

/-- C3 fails on the code: crawling the directory page `https://host/sub/` into
`/tmp/test`, the local entry `old.txt` of `/tmp/test/sub` is not on the page,
so reconciliation puts it, as `sub/old.txt`, in the remove list; the path
handed to `os.RemoveAll` is `/tmp/test/sub/sub/old.txt`, not the entry's
location `/tmp/test/sub/old.txt`, which is still there afterwards. -/
theorem stale_entry_removed_at_wrong_path :
    (specReconcile (specRemoteList (sampleURL "/sub/") ["a.txt"])
      (localListOf "sub/" [⟨"a.txt", false⟩, ⟨"old.txt", false⟩])).2 = ["sub/old.txt"] ∧
    (crawl (sampleEnv (fun _ => some listingResponse) [⟨"a.txt", false⟩, ⟨"old.txt", false⟩])
      staleState (sampleURL "/sub/") "/tmp/test").trace =
      [.out 55, .acquire, .fetch "https://host/sub/", .release, .validate (sampleURL "/sub/"),
        .out 64, .mkdirAll "/tmp/test/sub", .bodyRead, .readDir "/tmp/test/sub", .out 111,
        .out 112, .removeAll "/tmp/test/sub/sub/old.txt", .log 119, .bodyClose, .wgDone] ∧
    Join ["/tmp/test/sub", "old.txt"] = "/tmp/test/sub/old.txt" ∧
    Join ["/tmp/test", "sub/old.txt"] = "/tmp/test/sub/old.txt" ∧
    (crawl (sampleEnv (fun _ => some listingResponse) [⟨"a.txt", false⟩, ⟨"old.txt", false⟩])
      staleState (sampleURL "/sub/") "/tmp/test").st.fs "/tmp/test/sub/old.txt"
      = some (.file []) := by
  refine ⟨by decide, by decide, by decide, by decide, by decide⟩

/-- C8 fails on the code: `https://host/a` answers with the final URL
`https://host/b`, nothing is at `/tmp/test/a`, and the command `gln` cannot be
started; the type assertion of line 83 panics, the failure is not printed and
no task is started for the final URL. -/
theorem symlink_start_error_panics :
    (crawl noGlnEnv emptyState (sampleURL "/a") "/tmp/test").ending = .panicked ∧
    spawnedBy (crawl noGlnEnv emptyState (sampleURL "/a") "/tmp/test").trace = [] ∧
    (crawl noGlnEnv emptyState (sampleURL "/a") "/tmp/test").trace =
      [.out 55, .acquire, .fetch "https://host/a", .release, .validate (sampleURL "/b"),
        .out 64, .stat "/tmp/test/a", .exec "/tmp/test/b" "/tmp/test/a", .out 81,
        .bodyClose, .wgDone] := by
  refine ⟨by decide, by decide, by decide⟩

/-- C9, as stated, fails: the run of `main` whose only task fails with status
404 and the run whose only task downloads its file both end with status 0. -/
theorem exit_status_same_with_failed_task :
    (main (dockerEnv 404) (fun _ => none) "" 1 (fun _ => 0) 1).map Prod.fst = some 0 ∧
    (main (dockerEnv 404) (fun _ => none) "" 1 (fun _ => 0) 1).map
      (fun r => r.2.any Event.isFailure) = some true ∧
    (main (dockerEnv 200) (fun _ => none) "" 1 (fun _ => 0) 1).map Prod.fst = some 0 ∧
    (main (dockerEnv 200) (fun _ => none) "" 1 (fun _ => 0) 1).map
      (fun r => r.2.any Event.isFailure) = some false := by
  refine ⟨by decide, by decide, by decide, by decide⟩

theorem classify_no_panic (env : Env) (fs : FS) (url finalURL : URL) (resp : Response)
    (baseFolder : String) (hgln : ∀ fs a b, env.gln fs a b ≠ .startError) :
    (classify env fs url finalURL resp baseFolder).panicked = false := by
  unfold classify
  split
  · unfold redirect
    dsimp only
    split
    · split
      · split
        · rfl
        · rfl
        · rename_i h
          exact absurd h (hgln _ _ _)
      · rfl
    · rfl
  · split
    · unfold listing
      dsimp only
      split
      · rfl
      · split <;> rfl
    · unfold download
      dsimp only
      split
      · split
        · rfl
        · split
          · split
            · rfl
            · split <;> rfl
          · split <;> rfl
      · rfl

theorem crawl_returns (env : Env) (st : State) (url : URL) (baseFolder : String)
    (hfree : st.held < env.workers) (hgln : ∀ fs a b, env.gln fs a b ≠ .startError) :
    (crawl env st url baseFolder).ending = .returned ∧
    (crawl env st url baseFolder).st.held = st.held := by
  obtain ⟨h0, h1, _⟩ := get_trace_shape env st.held url
  have hret := (h1 hfree).1
  unfold crawl
  dsimp only
  split
  · split
    · rename_i hnone
      exact absurd hnone hret
    · exact ⟨rfl, h0⟩
    · split
      · exact ⟨rfl, h0⟩
      · refine ⟨?_, h0⟩
        dsimp only
        rw [classify_no_panic env _ _ _ _ _ hgln]
        rfl
  · exact ⟨rfl, rfl⟩

theorem stepTask_quiet (env : Env) (s : Sys) (i : Nat) (hi : i < s.pending.length)
    (hw : 0 < env.workers) (hgln : ∀ fs a b, env.gln fs a b ≠ .startError)
    (hinv : s.crashed = false ∧ s.waiting = [] ∧ s.st.held = 0 ∧
      s.wg = s.pending.length + s.waiting.length) :
    (stepTask env s i).crashed = false ∧ (stepTask env s i).waiting = [] ∧
      (stepTask env s i).st.held = 0 ∧
      (stepTask env s i).wg =
        (stepTask env s i).pending.length + (stepTask env s i).waiting.length := by
  obtain ⟨hc, hwt, hh, hcount⟩ := hinv
  refine ⟨?_, ?_, ?_, stepTask_counts env s i hi hcount⟩
  all_goals
    unfold stepTask
    rw [List.getElem?_eq_getElem hi]
    dsimp only
    have hr := crawl_returns env s.st s.pending[i].url s.pending[i].baseFolder
      (by rw [hh]; exact hw) hgln
    simp [hr.1, hr.2, hc, hwt, hh]

theorem runTasks_quiet (env : Env) (pick : Sys → Nat)
    (hw : 0 < env.workers) (hgln : ∀ fs a b, env.gln fs a b ≠ .startError) :
    ∀ (fuel : Nat) (s s' : Sys),
      (s.crashed = false ∧ s.waiting = [] ∧ s.st.held = 0 ∧
        s.wg = s.pending.length + s.waiting.length) →
      runTasks env pick fuel s = some s' →
      s'.crashed = false ∧ s'.wg = 0 := by
  intro fuel
  induction fuel with
  | zero =>
    intro s s' hinv hrun
    unfold runTasks at hrun
    split at hrun
    · rename_i hstop
      simp only [Option.some.injEq] at hrun
      subst hrun
      simp only [hinv.1, Bool.false_or, List.isEmpty_iff] at hstop
      refine ⟨hinv.1, ?_⟩
      rw [hinv.2.2.2, hstop, hinv.2.1]
      rfl
    · simp at hrun
  | succ fuel ih =>
    intro s s' hinv hrun
    unfold runTasks at hrun
    split at hrun
    · rename_i hstop
      simp only [Option.some.injEq] at hrun
      subst hrun
      simp only [hinv.1, Bool.false_or, List.isEmpty_iff] at hstop
      refine ⟨hinv.1, ?_⟩
      rw [hinv.2.2.2, hstop, hinv.2.1]
      rfl
    · rename_i hgo
      simp only [hinv.1, Bool.false_or, List.isEmpty_iff] at hgo
      have hlen : 0 < s.pending.length := List.length_pos.mpr hgo
      exact ih _ s' (stepTask_quiet env s _ (Nat.mod_lt _ hlen) hw hgln hinv) hrun

/-- C9, amended: the exit status does not tell whether a task failed: in every
world where start-up passes, there is at least one worker and the command
`gln`, when run, can be started, a run of `main` that ends ends with status 0,
whatever the fetches returned and whichever file system calls failed. -/
theorem exit_status_ignores_failed_tasks (env : Env) (fs : FS) (bindIP : String)
    (workersNum : Int) (pick : Sys → Nat) (fuel : Nat) (code : Nat) (trace : List Event)
    (hbind : bindIP = "" ∨ env.resolveIPAddr bindIP = true)
    (hvalid : env.validateEnterpoint base = true)
    (hworkers : 0 < workersNum)
    (hgln : ∀ fs a b, env.gln fs a b ≠ .startError)
    (hrun : main env fs bindIP workersNum pick fuel = some (code, trace)) :
    code = 0 := by
  unfold main at hrun
  have h1 : ¬ (bindIP ≠ "" ∧ env.resolveIPAddr bindIP = false) := by
    rcases hbind with h | h
    · exact fun hh => hh.1 h
    · exact fun hh => by rw [h] at hh; exact Bool.noConfusion hh.2
  have h2 : ¬ workersNum < 0 := by omega
  rw [if_neg h1, if_neg h2, if_neg (by rw [hvalid]; exact Bool.noConfusion)] at hrun
  split at hrun
  · exact Option.noConfusion hrun
  · rename_i s hs
    have hw : 0 < (mainEnv env workersNum).workers := by
      show 0 < workersNum.toNat
      omega
    have hq := runTasks_quiet (mainEnv env workersNum) pick hw hgln fuel (mainInit env fs) s
      ⟨rfl, rfl, rfl, mainInit_counts env fs⟩ hs
    simp only [Option.some.injEq, Prod.mk.injEq] at hrun
    rw [← hrun.1]
    simp [exitStatus, hq.1, hq.2]

theorem exit_status_ignores_failed_tasks_witness :
    main (dockerEnv 404) (fun _ => none) "" 1 (fun _ => 0) 1 =
      some (0, [.wgAdd, .spawn (seedResponse 404).RequestURL "/tmp/test", .out 55, .acquire,
        .fetch "https://download.docker.com/win/static/", .release,
        .validate (seedResponse 404).RequestURL, .out 64, .log 67, .bodyClose, .wgDone]) ∧
    (0 : Nat) = 0 :=
  ⟨by decide,
    exit_status_ignores_failed_tasks (dockerEnv 404) (fun _ => none) "" 1 (fun _ => 0) 1 0
      [.wgAdd, .spawn (seedResponse 404).RequestURL "/tmp/test", .out 55, .acquire,
        .fetch "https://download.docker.com/win/static/", .release,
        .validate (seedResponse 404).RequestURL, .out 64, .log 67, .bodyClose, .wgDone]
      (Or.inl rfl) rfl (by decide) (fun _ _ _ h => ExecResult.noConfusion h) (by decide)⟩

end Traverse
